import Mathlib

/-!
Shallow embedding of the data-integrity core of FLENgames-Stockgame:
the scoring engine, the entry sanitizer and merge resolver
(`prediction.ts`) and the symbol-search cache and response parser
(`alphaVantage.ts`).  JavaScript numbers are modelled as exact
rationals (`ℚ`); `NaN` and the other non-finite values are outside the
model.  JavaScript objects of unknown shape are modelled by the small
`JSVal` type below; fields whose shape the code never inspects keep
that type in the embedded records.
-/

namespace StockGame

/-- Model of an untrusted JavaScript value, as far as the embedded code
inspects one: a finite number, a string, `null`, `undefined`, or a boolean. -/
inductive JSVal where
  | num (q : ℚ)
  | str (s : String)
  | null
  | undef
  | boolean (b : Bool)
deriving DecidableEq

/-- JS `Math.round`: round half toward positive infinity. -/
def jsRound (q : ℚ) : Int := Int.floor (q + 1 / 2)

/-- Model of JS `String.prototype.trim`: strip whitespace from both
ends. -/
def jsTrim (s : String) : String :=
  String.mk (((s.data.dropWhile Char.isWhitespace).reverse.dropWhile Char.isWhitespace).reverse)

/-- Model of JS `String.prototype.toLowerCase`. -/
def jsToLower (s : String) : String :=
  String.mk (s.data.map Char.toLower)

/-- Digit run to a natural number; the callers check `Char.isDigit` first. -/
def digitsToNat (cs : List Char) : Nat :=
  cs.foldl (fun n c => n * 10 + (c.toNat - 48)) 0

/-- Value of a (possibly empty) run of decimal digits, `none` when a
non-digit appears. -/
def digitsVal (cs : List Char) : Option Nat :=
  if cs.all Char.isDigit then some (digitsToNat cs) else none

/-- Unsigned decimal literal `123`, `123.45`, `123.`, `.45`; anything else
is `none` (standing for `NaN`). -/
def parseUnsignedQ (cs : List Char) : Option ℚ :=
  let ip := cs.takeWhile (fun c => c ≠ '.')
  match cs.dropWhile (fun c => c ≠ '.') with
  | [] =>
    if ip = [] then none
    else (digitsVal ip).map (fun n => (n : ℚ))
  | _ :: fp =>
    if fp.any (fun c => c = '.') then none
    else if ip = [] ∧ fp = [] then none
    else
      match digitsVal ip, digitsVal fp with
      | some a, some b => some ((a : ℚ) + (b : ℚ) / ((10 : ℚ) ^ fp.length))
      | _, _ => none

/-- Signed decimal literal. -/
def parseSignedQ (cs : List Char) : Option ℚ :=
  match cs with
  | '-' :: rest => (parseUnsignedQ rest).map (fun q => -q)
  | '+' :: rest => parseUnsignedQ rest
  | _ => parseUnsignedQ cs

/-- JS `Number(s)` for a string `s`, restricted to plain decimal literals:
the empty (or whitespace-only) string converts to `0`, otherwise the trimmed
string must be a signed decimal literal; `none` stands for `NaN`. -/
def jsNumberOfString (s : String) : Option ℚ :=
  let t := jsTrim s
  if t = "" then some 0 else parseSignedQ t.toList

/-- JS `Number(v)`; `none` stands for `NaN`. -/
def jsToNumber : JSVal → Option ℚ
  | .num q => some q
  | .str s => jsNumberOfString s
  | .null => some 0
  | .undef => none
  | .boolean b => some (if b then 1 else 0)

/-- JS nullish coalescing `v ?? d`. -/
def jsCoalesce (v : JSVal) (d : JSVal) : JSVal :=
  match v with
  | .null => d
  | .undef => d
  | x => x

/-- JS `Math.round(Number(v ?? 0))`, used for the point-total fallback in
`sanitizeUserEntry`.  In this integer model the `NaN` result of an
unparseable string collapses to `0`. -/
def coerceIntPoints (v : JSVal) : Int :=
  match jsToNumber (jsCoalesce v (JSVal.num 0)) with
  | some q => jsRound q
  | none => 0

/-! ## Prediction data model and scoring engine -/

inductive Direction where
  | up
  | down
deriving DecidableEq

inductive Period where
  | day
  | week
deriving DecidableEq

inductive PStatus where
  | pending
  | resolved
deriving DecidableEq

/-- A prediction as produced by `sanitizeUserEntry`: the fields that
`isPrediction` validates carry their precise type; `id` is never
inspected by the embedded code and is carried through unchanged. -/
structure SPrediction where
  id : JSVal
  symbol : String
  prediction : Direction
  period : Period
  madeAt : String
  targetDate : String
  openPrice : Option ℚ
  closePrice : Option ℚ
  status : PStatus
  user : String
deriving DecidableEq

/-- Filter of `calculateSystem1Points`: status resolved and both prices
numbers (`typeof x === 'number'` is `Option.isSome` in the model). -/
def keepS1 (p : SPrediction) : Bool :=
  decide (p.status = PStatus.resolved) && p.openPrice.isSome && p.closePrice.isSome

def calculateSystem1Points (entries : List SPrediction) : ℚ :=
  (entries.filter keepS1).foldl
    (fun total p =>
      let actual : Direction :=
        if p.closePrice.getD 0 > p.openPrice.getD 0 then Direction.up else Direction.down
      total + (if p.prediction = actual then 1 else -1)) 0

/-- Filter of `calculateSystem2Points`: the system-1 filter plus a nonzero
open price (`prediction.openPrice !== 0`). -/
def keepS2 (p : SPrediction) : Bool :=
  decide (p.status = PStatus.resolved) && p.openPrice.isSome && p.closePrice.isSome
    && decide (p.openPrice ≠ some 0)

def calculateSystem2Points (entries : List SPrediction) : ℚ :=
  (entries.filter keepS2).foldl
    (fun total p =>
      let change := (p.closePrice.getD 0 - p.openPrice.getD 0) / p.openPrice.getD 1
      let changePercent := change * 100
      if p.prediction = Direction.up then total + changePercent else total - changePercent) 0

/-! ## Date.parse model -/

/-- Days from the civil epoch 1970-01-01 for a proleptic Gregorian date.
Standard civil-from-days inverse used to give the `Date.parse` model its
millisecond value. -/
def daysFromCivil (y m d : Int) : Int :=
  let y2 := if m ≤ 2 then y - 1 else y
  let era := (if 0 ≤ y2 then y2 else y2 - 399) / 400
  let yoe := y2 - era * 400
  let doy := (153 * (m + (if m > 2 then -3 else 9)) + 2) / 5 + d - 1
  let doe := yoe * 365 + yoe / 4 - yoe / 100 + doy
  era * 146097 + doe - 719468

def digitsToInt (cs : List Char) : Int :=
  (digitsToNat cs : Int)

/-- Model of the JavaScript builtin `Date.parse`, restricted to the full
UTC ECMAScript date-time string format `YYYY-MM-DDTHH:MM:SS.mmmZ` (the
format `toISOString` produces and the repository stores); every other
string is unparseable and yields `none`, standing for `NaN`. -/
def dateParseISO (s : String) : Option Int :=
  match s.toList with
  | [y1, y2, y3, y4, c1, m1, m2, c2, d1, d2, ct, h1, h2, c3, n1, n2, c4, s1, s2, c5, f1, f2, f3, cz] =>
    if c1 = '-' ∧ c2 = '-' ∧ ct = 'T' ∧ c3 = ':' ∧ c4 = ':' ∧ c5 = '.' ∧ cz = 'Z'
        ∧ [y1, y2, y3, y4, m1, m2, d1, d2, h1, h2, n1, n2, s1, s2, f1, f2, f3].all Char.isDigit then
      let y := digitsToInt [y1, y2, y3, y4]
      let mo := digitsToInt [m1, m2]
      let dd := digitsToInt [d1, d2]
      let hh := digitsToInt [h1, h2]
      let mi := digitsToInt [n1, n2]
      let ss := digitsToInt [s1, s2]
      let ms := digitsToInt [f1, f2, f3]
      if 1 ≤ mo ∧ mo ≤ 12 ∧ 1 ≤ dd ∧ dd ≤ 31 ∧ hh ≤ 23 ∧ mi ≤ 59 ∧ ss ≤ 59 then
        some (daysFromCivil y mo dd * 86400000 + hh * 3600000 + mi * 60000 + ss * 1000 + ms)
      else none
    else none
  | _ => none

/-- `getValidTimestamp`: non-strings give `0`; a string gives its
`Date.parse` value, with `NaN` mapped to `0`. -/
def getValidTimestamp (value : JSVal) : Int :=
  match value with
  | .str s =>
    match dateParseISO s with
    | some parsed => parsed
    | none => 0
  | _ => 0

/-! ## Entry sanitizer -/

/-- A raw, untrusted prediction record: every field is an arbitrary JS
value.  Non-object array elements, which the leading object check of
`isPrediction` rejects, are dropped in the source exactly like records
failing the field checks and are not distinguished by the model. -/
structure RawPrediction where
  id : JSVal
  symbol : JSVal
  prediction : JSVal
  period : JSVal
  madeAt : JSVal
  targetDate : JSVal
  openPrice : JSVal
  closePrice : JSVal
  status : JSVal
  user : JSVal
deriving DecidableEq

def isStr : JSVal → Bool
  | .str _ => true
  | _ => false

/-- Shape predicate `isPrediction` from `prediction.ts`. -/
def isPrediction (e : RawPrediction) : Bool :=
  isStr e.symbol
    && (e.prediction == JSVal.str "up" || e.prediction == JSVal.str "down")
    && (e.period == JSVal.str "day" || e.period == JSVal.str "week")
    && isStr e.madeAt
    && isStr e.targetDate
    && (e.status == JSVal.str "pending" || e.status == JSVal.str "resolved"
        || e.status == JSVal.undef)

/-- Per-prediction step of `sanitizeUserEntry`.  The `openPrice`,
`closePrice`, `status` and `user` lines mirror the source; the remaining
fields are the JS spread `...prediction`, written with typed extractors
that agree with the spread on every record passing `isPrediction` (the
only records this function is applied to). -/
def sanitizePrediction (username : String) (p : RawPrediction) : SPrediction :=
  { id := p.id
    symbol := match p.symbol with | .str s => s | _ => ""
    prediction := if p.prediction == JSVal.str "up" then Direction.up else Direction.down
    period := if p.period == JSVal.str "day" then Period.day else Period.week
    madeAt := match p.madeAt with | .str s => s | _ => ""
    targetDate := match p.targetDate with | .str s => s | _ => ""
    openPrice := match p.openPrice with | .num q => some q | _ => none
    closePrice := match p.closePrice with | .num q => some q | _ => none
    status := if p.status == JSVal.str "resolved" then PStatus.resolved else PStatus.pending
    user := username }

/-- A raw, untrusted league entry.  `predictions` is `none` when the field
is not an array (`Array.isArray` fails). -/
structure RawEntry where
  predictions : Option (List RawPrediction)
  pointsS1 : JSVal
  pointsS2 : JSVal
  updatedAt : JSVal
deriving DecidableEq

/-- A canonical league entry as produced by the sanitizer. -/
structure LeagueEntry where
  predictions : List SPrediction
  pointsS1 : Int
  pointsS2 : Int
  updatedAt : String
deriving DecidableEq

/-- `sanitizeUserEntry(username, entry)`.  `nowISO` is the injected
current instant (`new Date().toISOString()` in the source). -/
def sanitizeUserEntry (username : String) (entry : RawEntry) (nowISO : String) : LeagueEntry :=
  let rawPredictions := entry.predictions.getD []
  let sanitizedPredictions := (rawPredictions.filter isPrediction).map (sanitizePrediction username)
  let hasPredictionData := sanitizedPredictions.length > 0
  let computedS1 :=
    if hasPredictionData then jsRound (calculateSystem1Points sanitizedPredictions)
    else coerceIntPoints entry.pointsS1
  let computedS2 :=
    if hasPredictionData then jsRound (calculateSystem2Points sanitizedPredictions)
    else coerceIntPoints entry.pointsS2
  let updatedAtCandidate :=
    match entry.updatedAt with
    | .str s => if s ≠ "" then s else nowISO
    | _ => nowISO
  { predictions := sanitizedPredictions
    pointsS1 := computedS1
    pointsS2 := computedS2
    updatedAt := updatedAtCandidate }

def directionToString : Direction → String
  | .up => "up"
  | .down => "down"

def periodToString : Period → String
  | .day => "day"
  | .week => "week"

def statusToString : PStatus → String
  | .pending => "pending"
  | .resolved => "resolved"

/-- Injection of a sanitized prediction back into the raw shape, for
feeding a sanitizer output to the sanitizer again. -/
def sanitizedPredictionToRaw (p : SPrediction) : RawPrediction :=
  { id := p.id
    symbol := .str p.symbol
    prediction := .str (directionToString p.prediction)
    period := .str (periodToString p.period)
    madeAt := .str p.madeAt
    targetDate := .str p.targetDate
    openPrice := match p.openPrice with | some q => .num q | none => .null
    closePrice := match p.closePrice with | some q => .num q | none => .null
    status := .str (statusToString p.status)
    user := .str p.user }

/-- Injection of a canonical league entry back into the raw shape. -/
def leagueEntryToRaw (e : LeagueEntry) : RawEntry :=
  { predictions := some (e.predictions.map sanitizedPredictionToRaw)
    pointsS1 := .num e.pointsS1
    pointsS2 := .num e.pointsS2
    updatedAt := .str e.updatedAt }

/-! ## Merge resolver -/

/-- Steps 4 to 6 of the tie-break cascade in `shouldReplaceUserEntry`
(the code after the timestamp chain, source lines 139 to 150). -/
def shouldReplaceTieBreak (existingEntry incomingEntry : LeagueEntry) : Bool :=
  if incomingEntry.predictions.length ≠ existingEntry.predictions.length then
    decide (incomingEntry.predictions.length > existingEntry.predictions.length)
  else if incomingEntry.pointsS1 ≠ existingEntry.pointsS1 then
    decide (incomingEntry.pointsS1 > existingEntry.pointsS1)
  else if incomingEntry.pointsS2 ≠ existingEntry.pointsS2 then
    decide (incomingEntry.pointsS2 > existingEntry.pointsS2)
  else false

/-- `shouldReplaceUserEntry(existing, incoming)`.  The truthiness test of
a JS number is the nonzero test; the two early-return timestamp branches
and the fall-through to the count and point comparisons reproduce the
source control flow. -/
def shouldReplaceUserEntry (existingEntry incomingEntry : LeagueEntry) : Bool :=
  let existingTimestamp := getValidTimestamp (JSVal.str existingEntry.updatedAt)
  let incomingTimestamp := getValidTimestamp (JSVal.str incomingEntry.updatedAt)
  if incomingTimestamp ≠ 0 ∧ existingTimestamp ≠ 0 then
    if incomingTimestamp > existingTimestamp then true
    else if incomingTimestamp < existingTimestamp then false
    else shouldReplaceTieBreak existingEntry incomingEntry
  else if incomingTimestamp ≠ 0 ∧ existingTimestamp = 0 then true
  else if incomingTimestamp = 0 ∧ existingTimestamp ≠ 0 then false
  else shouldReplaceTieBreak existingEntry incomingEntry

/-- The value a JS object maps a username to: either not an object (the
`!entry || typeof entry !== 'object'` guard) or a raw entry. -/
inductive RawEntryVal where
  | notObj
  | obj (e : RawEntry)
deriving DecidableEq

/-- Insertion-ordered string-keyed map update, as JS `Map.set` and JS
object assignment behave: an existing key keeps its position, a new key
is appended. -/
def mapSet {α : Type} (m : List (String × α)) (k : String) (v : α) : List (String × α) :=
  if m.any (fun p => p.1 = k) then m.map (fun p => if p.1 = k then (k, v) else p)
  else m ++ [(k, v)]

/-- JS `Map.delete`: remove the entry of the key. -/
def mapDelete {α : Type} (m : List (String × α)) (k : String) : List (String × α) :=
  m.eraseP (fun p => p.1 == k)

/-- JS `Map.get` and object indexing: the value stored at a key. -/
def mapGet {α : Type} : List (String × α) → String → Option α
  | [], _ => none
  | p :: t, k => if p.1 = k then some p.2 else mapGet t k

structure MergeSummary where
  added : List String
  updated : List String
  mergedUsers : List (String × LeagueEntry)
deriving DecidableEq

/-- Body of the `forEach` over `Object.entries(incomingUsers)` in
`mergeLeagueUsers`. -/
def mergeStep (nowISO : String) (exclude : List String)
    (acc : MergeSummary) (pair : String × RawEntryVal) : MergeSummary :=
  match pair.2 with
  | .notObj => acc
  | .obj raw =>
    if pair.1 = "" ∨ pair.1 ∈ exclude then acc
    else
      let sanitizedEntry := sanitizeUserEntry pair.1 raw nowISO
      match mapGet acc.mergedUsers pair.1 with
      | none =>
        { added := acc.added ++ [pair.1]
          updated := acc.updated
          mergedUsers := mapSet acc.mergedUsers pair.1 sanitizedEntry }
      | some existingEntry =>
        if shouldReplaceUserEntry existingEntry sanitizedEntry then
          { added := acc.added
            updated := acc.updated ++ [pair.1]
            mergedUsers := mapSet acc.mergedUsers pair.1 sanitizedEntry }
        else acc

/-- `mergeLeagueUsers(existingUsers, incomingUsers, {exclude})`.  The
username-to-entry objects are insertion-ordered association lists, the
iteration order of `Object.entries`. -/
def mergeLeagueUsers (existingUsers : List (String × LeagueEntry))
    (incomingUsers : List (String × RawEntryVal)) (exclude : List String)
    (nowISO : String) : MergeSummary :=
  incomingUsers.foldl (mergeStep nowISO exclude)
    { added := [], updated := [], mergedUsers := existingUsers }

/-! ## Symbol search: matches, cache and response parser -/

structure SymbolSearchMatch where
  symbol : String
  name : String
  region : Option String := none
  currency : Option String := none
  matchScore : Option ℚ := none
  type : Option String := none
deriving DecidableEq

/-- `toCleanString`: trimmed non-empty string or absent. -/
def toCleanString (v : JSVal) : Option String :=
  match v with
  | .str s =>
    let trimmed := jsTrim s
    if trimmed.length > 0 then some trimmed else none
  | _ => none

/-- JS `Number.parseFloat` on the character list of a string: optional
sign, then a decimal digit run with an optional fractional part, as a
prefix; `none` when no digit is consumed (`NaN`).  Every parsed value is
finite, so the `Number.isFinite(parsed)` guard of the source is the
`isSome` test here. -/
def parseFloatDigits (cs : List Char) : Option ℚ :=
  let ip := cs.takeWhile Char.isDigit
  let rest := cs.drop ip.length
  let fp :=
    match rest with
    | '.' :: t => t.takeWhile Char.isDigit
    | _ => []
  if ip = [] ∧ fp = [] then none
  else some ((digitsToNat ip : ℚ) + (digitsToNat fp : ℚ) / ((10 : ℚ) ^ fp.length))

def jsParseFloat (s : String) : Option ℚ :=
  match s.toList.dropWhile (fun c => c.isWhitespace) with
  | '-' :: rest => (parseFloatDigits rest).map (fun q => -q)
  | '+' :: rest => parseFloatDigits rest
  | cs => parseFloatDigits cs

/-- `toNumber`: a finite number passes through, a string is parsed with
`Number.parseFloat`, anything else is absent. -/
def toNumber (v : JSVal) : Option ℚ :=
  match v with
  | .num q => some q
  | .str s => jsParseFloat s
  | _ => none

/-- `cloneMatches`: the object spread copies every field, so on the value
level the clone of a match list is the list itself. -/
def cloneMatches (ms : List SymbolSearchMatch) : List SymbolSearchMatch :=
  ms.map (fun m => m)

def normalizeSymbolSearchKeyword (keyword : String) : String :=
  jsToLower (jsTrim keyword)

def DEFAULT_CACHE_TTL_MS : Int := 5 * 60 * 1000

def DEFAULT_CACHE_MAX_ENTRIES : Int := 50

/-- The options object of `createSymbolSearchCache`.  `maxEntries` is an
arbitrary JS number (a rational in this model); the positive branch of
the resolution applies `Math.floor`, so a fractional option below 1
resolves to 0.  Time quantities (`ttlMs`, like `Date.now()` and every
expiry instant) are modelled in integer milliseconds. -/
structure SymbolSearchCacheOptions where
  ttlMs : Option Int := none
  maxEntries : Option ℚ := none
deriving DecidableEq

/-- The configuration resolved by `createSymbolSearchCache`: a present
option is used when strictly positive, otherwise the default applies;
the positive `maxEntries` branch takes `Math.floor` of the option, so a
fractional option in the open interval from 0 to 1 resolves to a
max-entry count of 0. -/
structure SymbolSearchCacheConfig where
  ttlMs : Int
  maxEntries : Int
deriving DecidableEq

def resolveCacheConfig (options : SymbolSearchCacheOptions) : SymbolSearchCacheConfig :=
  { ttlMs :=
      match options.ttlMs with
      | some t => if t > 0 then t else DEFAULT_CACHE_TTL_MS
      | none => DEFAULT_CACHE_TTL_MS
    maxEntries :=
      match options.maxEntries with
      | some m => if m > 0 then Int.floor m else DEFAULT_CACHE_MAX_ENTRIES
      | none => DEFAULT_CACHE_MAX_ENTRIES }

structure CacheEntry where
  matchList : List SymbolSearchMatch
  expiresAt : Int
  lastAccessed : Nat
deriving DecidableEq

/-- The mutable state closed over by a cache instance: the keyed table in
insertion order and the monotone access counter. -/
structure CacheState where
  accessSequence : Nat
  entries : List (String × CacheEntry)
deriving DecidableEq

def emptyCacheState : CacheState :=
  { accessSequence := 0, entries := [] }

/-- The `forEach` scan of the eviction code: the first entry whose
recency marker is strictly below every earlier minimum, hence the entry
with the smallest marker (first one on ties). -/
def cacheOldestKey (entries : List (String × CacheEntry)) : Option String :=
  (entries.foldl
    (fun best p =>
      match best with
      | none => some p
      | some q => if p.2.lastAccessed < q.2.lastAccessed then some p else q)
    none).map Prod.fst

/-- `set(keyword, matches)`.  `now` is the injected `Date.now()` value.
The `if (oldestKey)` truthiness guard of the source skips the deletion
for an empty-string key. -/
def cacheSet (cfg : SymbolSearchCacheConfig) (now : Int) (keyword : String)
    (ms : List SymbolSearchMatch) (st : CacheState) : CacheState :=
  if cfg.maxEntries = 0 then st
  else
    let normalizedKey := normalizeSymbolSearchKeyword keyword
    if normalizedKey = "" then st
    else
      let seq := st.accessSequence + 1
      let entries := mapSet st.entries normalizedKey
        { matchList := cloneMatches ms, expiresAt := now + cfg.ttlMs, lastAccessed := seq }
      let entries :=
        if (entries.length : Int) > cfg.maxEntries then
          match cacheOldestKey entries with
          | some oldestKey => if oldestKey = "" then entries else mapDelete entries oldestKey
          | none => entries
        else entries
      { accessSequence := seq, entries := entries }

/-- `get(keyword)`: the returned value and the state after the call. -/
def cacheGet (now : Int) (keyword : String) (st : CacheState) :
    Option (List SymbolSearchMatch) × CacheState :=
  let normalizedKey := normalizeSymbolSearchKeyword keyword
  if normalizedKey = "" then (none, st)
  else
    match mapGet st.entries normalizedKey with
    | none => (none, st)
    | some entry =>
      if entry.expiresAt ≤ now then
        (none, { st with entries := mapDelete st.entries normalizedKey })
      else
        let seq := st.accessSequence + 1
        (some (cloneMatches entry.matchList),
         { accessSequence := seq
           entries := mapSet st.entries normalizedKey { entry with lastAccessed := seq } })

def cacheClear (st : CacheState) : CacheState :=
  { st with entries := [] }

/-- `pruneExpired(now)`: drop every entry whose expiry is at or before
`now`. -/
def cachePruneExpired (now : Int) (st : CacheState) : CacheState :=
  { st with entries := st.entries.filter (fun p => decide (now < p.2.expiresAt)) }

def cacheSize (st : CacheState) : Nat :=
  st.entries.length

/-- The numeric-prefixed fields of one `bestMatches` element. -/
structure RawSearchMatchObj where
  symbolField : JSVal
  nameField : JSVal
  typeField : JSVal
  regionField : JSVal
  currencyField : JSVal
  matchScoreField : JSVal
deriving DecidableEq

/-- One `bestMatches` element: a record or not (`isRecord` guard). -/
inductive RawSearchMatch where
  | notRecord
  | record (m : RawSearchMatchObj)
deriving DecidableEq

/-- The decoded upstream payload: a record carrying the `Note`,
`Information` and `Error Message` fields and the `bestMatches` field
(`none` when it is not an array), or not a record at all. -/
inductive RawSearchPayload where
  | notRecord
  | record (note information errorMessage : JSVal) (bestMatches : Option (List RawSearchMatch))
deriving DecidableEq

structure ParsedSymbolSearchResponse where
  matchList : List SymbolSearchMatch
  message : Option String
  isRateLimited : Bool
  isCacheable : Bool
deriving DecidableEq

/-- `parseSymbolSearchMatch`: requires clean symbol and name, carries the
optional fields through when present and well typed. -/
def parseSymbolSearchMatch (value : RawSearchMatch) : Option SymbolSearchMatch :=
  match value with
  | .notRecord => none
  | .record m =>
    match toCleanString m.symbolField, toCleanString m.nameField with
    | some symbol, some name =>
      some
        { symbol := symbol
          name := name
          type := toCleanString m.typeField
          region := toCleanString m.regionField
          currency := toCleanString m.currencyField
          matchScore := toNumber m.matchScoreField }
    | _, _ => none

/-- `parseSymbolSearchResponse`.  The `.map(...).filter(Boolean)` of the
source is `List.filterMap`. -/
def parseSymbolSearchResponse (value : RawSearchPayload) : ParsedSymbolSearchResponse :=
  match value with
  | .notRecord =>
    { matchList := []
      message := some "Unexpected response from Alpha Vantage."
      isRateLimited := false
      isCacheable := false }
  | .record note information errorMessage bestMatches =>
    match toCleanString note with
    | some n =>
      { matchList := [], message := some n, isRateLimited := true, isCacheable := false }
    | none =>
      match toCleanString information with
      | some i =>
        { matchList := [], message := some i, isRateLimited := true, isCacheable := false }
      | none =>
        match toCleanString errorMessage with
        | some m =>
          { matchList := [], message := some m, isRateLimited := false, isCacheable := false }
        | none =>
          match bestMatches with
          | none =>
            { matchList := []
              message := some "Unexpected response from Alpha Vantage."
              isRateLimited := false
              isCacheable := false }
          | some raw =>
            { matchList := raw.filterMap parseSymbolSearchMatch
              message := none
              isRateLimited := false
              isCacheable := true }

/-! ## Theorems -/

/-- A JS value that is a number (`typeof v === 'number'`). -/
def isNum : JSVal → Bool
  | .num _ => true
  | _ => false

/-- The raw prediction of the repository test
`preserves numeric price data provided as strings when sanitizing entries`:
a well-shaped resolved prediction whose prices are the numeric strings
`150.25` and `175.75`. -/
def stringPricePrediction : RawPrediction :=
  { id := .num 6
    symbol := .str "AAPL"
    prediction := .str "up"
    period := .str "day"
    madeAt := .str "2024-01-01T00:00:00.000Z"
    targetDate := .str "2024-01-02"
    openPrice := .str "150.25"
    closePrice := .str "175.75"
    status := .str "resolved"
    user := .str "Test" }

def stringPriceEntry : RawEntry :=
  { predictions := some [stringPricePrediction]
    pointsS1 := .undef
    pointsS2 := .undef
    updatedAt := .undef }

/-- C1: the claim (and the repository test) state that numeric price
strings such as `150.25` are accepted and parsed; the code instead
coerces every non-`number` price to `null`.  At the failing input of the
repository test the sanitized prediction survives shape validation with
status `resolved` but both prices `null`, not the parsed numbers. -/
theorem sanitize_c1_string_prices_become_null :
    ((sanitizeUserEntry "StringPlayer" stringPriceEntry "2024-01-05T00:00:00.000Z").predictions.map
      (fun p => (p.status, p.openPrice, p.closePrice)))
      = [(PStatus.resolved, none, none)] := by
  decide

/-- A well-shaped prediction with status `resolved` and no numeric
prices: shape validation accepts it (`isPrediction` does not inspect the
prices) and sanitization keeps status `resolved` while both prices
become `null`. -/
def resolvedNoPricePrediction : RawPrediction :=
  { id := .num 1
    symbol := .str "AAPL"
    prediction := .str "up"
    period := .str "day"
    madeAt := .str "2024-01-01T00:00:00.000Z"
    targetDate := .str "2024-01-02"
    openPrice := .undef
    closePrice := .undef
    status := .str "resolved"
    user := .str "Test" }

def resolvedNoPriceEntry : RawEntry :=
  { predictions := some [resolvedNoPricePrediction]
    pointsS1 := .undef
    pointsS2 := .undef
    updatedAt := .str "2024-01-01T00:00:00.000Z" }

/-- C3 counterexample: the claimed invariant fails on the code.  The
output of `sanitizeUserEntry` at this input contains a prediction with
status `resolved` whose prices are both `null`. -/
theorem sanitize_c3_counterexample :
    ¬ (∀ p ∈ (sanitizeUserEntry "u" resolvedNoPriceEntry "now").predictions,
        p.status = PStatus.resolved → p.openPrice ≠ none ∧ p.closePrice ≠ none) := by
  decide

/-- C3 (amended): the resolved-implies-priced invariant holds exactly
when every raw prediction carrying status `resolved` carries numeric
open and close prices; the sanitizer always rewrites ownership to the
given username. -/
theorem sanitize_c3_amended (username : String) (e : RawEntry) (nowISO : String)
    (h : ∀ rp ∈ e.predictions.getD [], isPrediction rp = true →
      rp.status = JSVal.str "resolved" → isNum rp.openPrice = true ∧ isNum rp.closePrice = true) :
    ∀ p ∈ (sanitizeUserEntry username e nowISO).predictions,
      p.user = username ∧ (p.status = PStatus.resolved → p.openPrice ≠ none ∧ p.closePrice ≠ none) := by
  intro p hp
  have hp2 : p ∈ ((e.predictions.getD []).filter isPrediction).map (sanitizePrediction username) := hp
  rcases List.mem_map.mp hp2 with ⟨rp, hrpmem, hrpeq⟩
  rcases List.mem_filter.mp hrpmem with ⟨hraw, hpred⟩
  subst hrpeq
  refine ⟨rfl, fun hres => ?_⟩
  have hstat : rp.status = JSVal.str "resolved" := by
    by_contra hne
    have : (rp.status == JSVal.str "resolved") = false := beq_eq_false_iff_ne.mpr hne
    simp [sanitizePrediction, this] at hres
  rcases h rp hraw hpred hstat with ⟨ho, hc⟩
  constructor
  · rcases hop : rp.openPrice with q | s | _ | _ | b
    · simp [sanitizePrediction, hop]
    all_goals rw [hop] at ho; simp [isNum] at ho
  · rcases hcp : rp.closePrice with q | s | _ | _ | b
    · simp [sanitizePrediction, hcp]
    all_goals rw [hcp] at hc; simp [isNum] at hc

/-- A well-shaped resolved prediction with numeric prices. -/
def numericPricePrediction : RawPrediction :=
  { id := .num 2
    symbol := .str "AAPL"
    prediction := .str "up"
    period := .str "day"
    madeAt := .str "2024-01-01T00:00:00.000Z"
    targetDate := .str "2024-01-02"
    openPrice := .num 100
    closePrice := .num 110
    status := .str "resolved"
    user := .str "Test" }

def numericPriceEntry : RawEntry :=
  { predictions := some [numericPricePrediction]
    pointsS1 := .undef
    pointsS2 := .undef
    updatedAt := .str "2024-01-01T00:00:00.000Z" }

theorem sanitize_c3_amended_witness :
    (∀ rp ∈ numericPriceEntry.predictions.getD [], isPrediction rp = true →
      rp.status = JSVal.str "resolved" → isNum rp.openPrice = true ∧ isNum rp.closePrice = true)
    ∧ (∀ p ∈ (sanitizeUserEntry "PlayerOne" numericPriceEntry "now").predictions,
        p.user = "PlayerOne"
        ∧ (p.status = PStatus.resolved → p.openPrice ≠ none ∧ p.closePrice ≠ none)) :=
  ⟨by decide, sanitize_c3_amended "PlayerOne" numericPriceEntry "now" (by decide)⟩

/-- C5: the dispatch of `parseSymbolSearchResponse`.  A clean `Note`
field gives the rate-limit result with that trimmed text; with `Note`
absent a clean `Information` field does the same; with both absent a
clean `Error Message` field gives the same matches and message with
`isRateLimited = false`; and with all three absent an array-valued
`bestMatches` is cacheable with no message, whatever its elements. -/
theorem parseResponse_c5 :
    (∀ note information errorMessage bestMatches m, toCleanString note = some m →
      parseSymbolSearchResponse (.record note information errorMessage bestMatches)
        = { matchList := [], message := some m, isRateLimited := true, isCacheable := false })
    ∧ (∀ note information errorMessage bestMatches m, toCleanString note = none →
      toCleanString information = some m →
      parseSymbolSearchResponse (.record note information errorMessage bestMatches)
        = { matchList := [], message := some m, isRateLimited := true, isCacheable := false })
    ∧ (∀ note information errorMessage bestMatches m, toCleanString note = none →
      toCleanString information = none → toCleanString errorMessage = some m →
      parseSymbolSearchResponse (.record note information errorMessage bestMatches)
        = { matchList := [], message := some m, isRateLimited := false, isCacheable := false })
    ∧ (∀ note information errorMessage l, toCleanString note = none →
      toCleanString information = none → toCleanString errorMessage = none →
      parseSymbolSearchResponse (.record note information errorMessage (some l))
        = { matchList := l.filterMap parseSymbolSearchMatch, message := none,
            isRateLimited := false, isCacheable := true }) := by
  refine ⟨?_, ?_, ?_, ?_⟩
  · intro note information errorMessage bestMatches m h
    simp [parseSymbolSearchResponse, h]
  · intro note information errorMessage bestMatches m h1 h2
    simp [parseSymbolSearchResponse, h1, h2]
  · intro note information errorMessage bestMatches m h1 h2 h3
    simp [parseSymbolSearchResponse, h1, h2, h3]
  · intro note information errorMessage l h1 h2 h3
    simp [parseSymbolSearchResponse, h1, h2, h3]

theorem parseResponse_c5_witness :
    (toCleanString (JSVal.str "Please try again later.") = some "Please try again later."
      ∧ parseSymbolSearchResponse
          (.record (JSVal.str "Please try again later.") JSVal.undef JSVal.undef none)
        = { matchList := [], message := some "Please try again later.",
            isRateLimited := true, isCacheable := false })
    ∧ parseSymbolSearchResponse
        (.record JSVal.undef JSVal.undef JSVal.undef (some [RawSearchMatch.notRecord]))
      = { matchList := [], message := none, isRateLimited := false, isCacheable := true } :=
  ⟨⟨by decide,
    parseResponse_c5.1 (JSVal.str "Please try again later.") JSVal.undef JSVal.undef none
      "Please try again later." (by decide)⟩,
   parseResponse_c5.2.2.2 JSVal.undef JSVal.undef JSVal.undef [RawSearchMatch.notRecord]
     (by decide) (by decide) (by decide)⟩

/-- Contribution of one entry to system-2 scoring as the source computes
it (the `?? 1` default on the divisor). -/
def s2SourceContribution (p : SPrediction) : ℚ :=
  if p.prediction = Direction.up then
    (p.closePrice.getD 0 - p.openPrice.getD 0) / p.openPrice.getD 1 * 100
  else -((p.closePrice.getD 0 - p.openPrice.getD 0) / p.openPrice.getD 1 * 100)

/-- Percent change of one entry as the spec words it: the price
difference over the open price itself, times 100. -/
def s2SpecPercent (p : SPrediction) : ℚ :=
  (p.closePrice.getD 0 - p.openPrice.getD 0) / p.openPrice.getD 0 * 100

lemma foldl_add_eq_sum (f : SPrediction → ℚ) :
    ∀ (l : List SPrediction) (t : ℚ), l.foldl (fun acc p => acc + f p) t = t + (l.map f).sum := by
  intro l
  induction l with
  | nil => intro t; simp
  | cons p tl ih =>
    intro t
    simp only [List.foldl_cons, List.map_cons, List.sum_cons, ih]
    ring

lemma calculateSystem2Points_eq_sum (l : List SPrediction) :
    calculateSystem2Points l = ((l.filter keepS2).map s2SourceContribution).sum := by
  have hfun : (fun (total : ℚ) (p : SPrediction) =>
      let change := (p.closePrice.getD 0 - p.openPrice.getD 0) / p.openPrice.getD 1
      let changePercent := change * 100
      if p.prediction = Direction.up then total + changePercent else total - changePercent)
      = fun (total : ℚ) (p : SPrediction) => total + s2SourceContribution p := by
    funext total p
    by_cases h : p.prediction = Direction.up <;> simp [s2SourceContribution, h, sub_eq_add_neg]
  rw [calculateSystem2Points, hfun, foldl_add_eq_sum, zero_add]

lemma keepS2_eq_true_iff (p : SPrediction) :
    keepS2 p = true ↔
      p.status = PStatus.resolved ∧ p.openPrice.isSome ∧ p.closePrice.isSome
        ∧ p.openPrice ≠ some 0 := by
  simp [keepS2, Bool.and_eq_true, decide_eq_true_eq, and_assoc]

/-- C9: `calculateSystem2Points` sums the signed spec percent change
over exactly the entries that are resolved, carry numeric prices and
have a nonzero open price; any resolved entry with open price `0` is
excluded without affecting the total, whatever its direction; and every
entry surviving the filter has a nonzero open price, so the percent
division never has a zero divisor. -/
theorem scoreSystemTwo_c9 :
    (∀ l : List SPrediction, calculateSystem2Points l
        = ((l.filter keepS2).map (fun p =>
            if p.prediction = Direction.up then s2SpecPercent p else -(s2SpecPercent p))).sum)
    ∧ (∀ p : SPrediction, p.status = PStatus.resolved → p.openPrice = some 0 →
        ∀ l₁ l₂, calculateSystem2Points (l₁ ++ p :: l₂) = calculateSystem2Points (l₁ ++ l₂))
    ∧ (∀ (l : List SPrediction) (p : SPrediction), p ∈ l.filter keepS2 →
        p.status = PStatus.resolved ∧ p.openPrice.isSome ∧ p.closePrice.isSome
          ∧ p.openPrice ≠ some 0) := by
  refine ⟨?_, ?_, ?_⟩
  · intro l
    rw [calculateSystem2Points_eq_sum]
    congr 1
    apply List.map_congr_left
    intro p hp
    have hk := (keepS2_eq_true_iff p).mp (List.of_mem_filter hp)
    rcases hq : p.openPrice with _ | q
    · rw [hq] at hk; simp at hk
    · have hq0 : q ≠ 0 := by
        intro h
        rw [hq, h] at hk
        exact hk.2.2.2 rfl
      simp [s2SourceContribution, s2SpecPercent, hq]
  · intro p hres hopen l₁ l₂
    have hk : keepS2 p = false := by
      simp [keepS2, hopen]
    simp [calculateSystem2Points, List.filter_append, List.filter_cons, hk]
  · intro l p hp
    exact (keepS2_eq_true_iff p).mp (List.of_mem_filter hp)

/-- A resolved upward prediction with open price exactly `0`. -/
def zeroOpenPrediction : SPrediction :=
  { id := .num 3
    symbol := "ZERO"
    prediction := Direction.up
    period := Period.day
    madeAt := "2024-01-01T00:00:00.000Z"
    targetDate := "2024-01-02"
    openPrice := some 0
    closePrice := some 10
    status := PStatus.resolved
    user := "Test" }

/-- A resolved upward prediction with nonzero prices. -/
def plainResolvedPrediction : SPrediction :=
  { id := .num 4
    symbol := "AAPL"
    prediction := Direction.up
    period := Period.day
    madeAt := "2024-01-01T00:00:00.000Z"
    targetDate := "2024-01-02"
    openPrice := some 100
    closePrice := some 110
    status := PStatus.resolved
    user := "Test" }

theorem scoreSystemTwo_c9_witness :
    zeroOpenPrediction.status = PStatus.resolved
    ∧ zeroOpenPrediction.openPrice = some 0
    ∧ calculateSystem2Points [zeroOpenPrediction, plainResolvedPrediction]
        = calculateSystem2Points [plainResolvedPrediction] :=
  ⟨rfl, rfl, scoreSystemTwo_c9.2.1 zeroOpenPrediction rfl rfl [] [plainResolvedPrediction]⟩

/-- Steps 3 to 6 of the claimed cascade, written as the claim words
them: the strictly longer prediction list wins, then the strictly
greater system-1 total, then the strictly greater system-2 total, and a
full tie keeps the existing entry. -/
def shouldReplaceCascadeSpecTie (existingEntry incomingEntry : LeagueEntry) : Bool :=
  if incomingEntry.predictions.length > existingEntry.predictions.length then true
  else if incomingEntry.predictions.length < existingEntry.predictions.length then false
  else if incomingEntry.pointsS1 > existingEntry.pointsS1 then true
  else if incomingEntry.pointsS1 < existingEntry.pointsS1 then false
  else if incomingEntry.pointsS2 > existingEntry.pointsS2 then true
  else if incomingEntry.pointsS2 < existingEntry.pointsS2 then false
  else false

/-- The tie-break cascade of claim C4, written from the claim text: with
two valid (nonzero) timestamps the strictly later one wins outright,
one-sided validity decides by presence, and equal or absent timestamps
fall to the count and score comparisons. -/
def shouldReplaceCascadeSpec (existingEntry incomingEntry : LeagueEntry) : Bool :=
  let existingTimestamp := getValidTimestamp (JSVal.str existingEntry.updatedAt)
  let incomingTimestamp := getValidTimestamp (JSVal.str incomingEntry.updatedAt)
  if incomingTimestamp ≠ 0 ∧ existingTimestamp ≠ 0 then
    if incomingTimestamp > existingTimestamp then true
    else if incomingTimestamp < existingTimestamp then false
    else shouldReplaceCascadeSpecTie existingEntry incomingEntry
  else if incomingTimestamp ≠ 0 then true
  else if existingTimestamp ≠ 0 then false
  else shouldReplaceCascadeSpecTie existingEntry incomingEntry

/-- One comparison step: deciding by strict greater-than whenever the
values differ is deciding by trichotomy. -/
lemma neStepInt (a b : Int) (rest : Bool) :
    (if a ≠ b then decide (a > b) else rest)
      = (if a > b then true else if a < b then false else rest) := by
  by_cases hgt : a > b
  · have hne : a ≠ b := by omega
    simp [hne, hgt]
  · by_cases hlt : a < b
    · have hne : a ≠ b := by omega
      simp [hne, hgt, hlt]
    · have heq : a = b := by omega
      subst heq
      simp

lemma neStepNat (a b : Nat) (rest : Bool) :
    (if a ≠ b then decide (a > b) else rest)
      = (if a > b then true else if a < b then false else rest) := by
  by_cases hgt : a > b
  · have hne : a ≠ b := by omega
    simp [hne, hgt]
  · by_cases hlt : a < b
    · have hne : a ≠ b := by omega
      simp [hne, hgt, hlt]
    · have heq : a = b := by omega
      subst heq
      simp

lemma tieBreak_eq_cascadeTie (existingEntry incomingEntry : LeagueEntry) :
    shouldReplaceTieBreak existingEntry incomingEntry
      = shouldReplaceCascadeSpecTie existingEntry incomingEntry := by
  unfold shouldReplaceTieBreak shouldReplaceCascadeSpecTie
  rw [neStepInt, neStepInt, neStepNat]

/-- C4: `shouldReplaceUserEntry` computes exactly the claimed shortcut
cascade, for every pair of entries. -/
theorem shouldReplace_c4_cascade (existingEntry incomingEntry : LeagueEntry) :
    shouldReplaceUserEntry existingEntry incomingEntry
      = shouldReplaceCascadeSpec existingEntry incomingEntry := by
  simp only [shouldReplaceUserEntry, shouldReplaceCascadeSpec]
  rw [tieBreak_eq_cascadeTie]
  generalize getValidTimestamp (JSVal.str incomingEntry.updatedAt) = it
  generalize getValidTimestamp (JSVal.str existingEntry.updatedAt) = et
  split_ifs <;> first | rfl | (exfalso; omega)

/-- C10: an `updatedAt` string that parses to exactly the Unix epoch
yields timestamp `0` from `getValidTimestamp`, so `shouldReplaceUserEntry`
treats the entry exactly like one with an unparseable `updatedAt`, and
against an opponent with any nonzero valid timestamp the one-sided
branches decide (presence wins), never the later-timestamp comparison. -/
theorem getValidTimestamp_c10 (e : LeagueEntry) (h0 : dateParseISO e.updatedAt = some 0) :
    getValidTimestamp (JSVal.str e.updatedAt) = 0
    ∧ (∀ s2, dateParseISO s2 = none → ∀ opp,
        shouldReplaceUserEntry e opp = shouldReplaceUserEntry { e with updatedAt := s2 } opp
        ∧ shouldReplaceUserEntry opp e = shouldReplaceUserEntry opp { e with updatedAt := s2 })
    ∧ (∀ opp, getValidTimestamp (JSVal.str opp.updatedAt) ≠ 0 →
        shouldReplaceUserEntry e opp = true ∧ shouldReplaceUserEntry opp e = false) := by
  have hts : getValidTimestamp (JSVal.str e.updatedAt) = 0 := by
    simp [getValidTimestamp, h0]
  refine ⟨hts, ?_, ?_⟩
  · intro s2 hs2 opp
    have hts2 : getValidTimestamp (JSVal.str s2) = 0 := by
      simp [getValidTimestamp, hs2]
    constructor
    · simp [shouldReplaceUserEntry, shouldReplaceTieBreak, hts, hts2]
    · simp [shouldReplaceUserEntry, shouldReplaceTieBreak, hts, hts2]
  · intro opp hop
    constructor
    · simp [shouldReplaceUserEntry, hts, hop]
    · simp [shouldReplaceUserEntry, hts, hop]

def epochEntry : LeagueEntry :=
  { predictions := [], pointsS1 := 9, pointsS2 := 9, updatedAt := "1970-01-01T00:00:00.000Z" }

def march2024Entry : LeagueEntry :=
  { predictions := [], pointsS1 := 0, pointsS2 := 0, updatedAt := "2024-03-02T12:30:15.123Z" }

theorem getValidTimestamp_c10_witness :
    dateParseISO "1970-01-01T00:00:00.000Z" = some 0
    ∧ getValidTimestamp (JSVal.str "2024-03-02T12:30:15.123Z") ≠ 0
    ∧ shouldReplaceUserEntry epochEntry march2024Entry = true
    ∧ shouldReplaceUserEntry march2024Entry epochEntry = false :=
  ⟨by decide, by decide,
   ((getValidTimestamp_c10 epochEntry (by decide)).2.2 march2024Entry (by decide)).1,
   ((getValidTimestamp_c10 epochEntry (by decide)).2.2 march2024Entry (by decide)).2⟩

def zeroMaxOptions : SymbolSearchCacheOptions :=
  { ttlMs := none, maxEntries := some 0 }

def aaplMatch : SymbolSearchMatch :=
  { symbol := "AAPL", name := "Apple Inc." }

/-- C2 counterexample: a cache created with `maxEntries = 0` is not
disabled.  The option resolution treats `0` like an absent option and
falls back to the default of 50, so after one `set` the size is 1, not
0, and `get` returns the stored matches, not null. -/
theorem cache_c2_counterexample :
    cacheSize (cacheSet (resolveCacheConfig zeroMaxOptions) 0 "aapl" [aaplMatch] emptyCacheState)
        = 1
    ∧ (cacheGet 1 "aapl"
        (cacheSet (resolveCacheConfig zeroMaxOptions) 0 "aapl" [aaplMatch] emptyCacheState)).1
        = some [aaplMatch] := by
  constructor
  · decide
  · decide

/-- C2 (amended): a cache created with `maxEntries = 0` is not
disabled.  The resolution treats `0` (not strictly positive) like an
absent option and falls back to the default maximum of 50 entries, so
the cache behaves exactly like a default-configured one: `set` stores
entries normally and `get` returns them.  `set` is a no-op exactly when
the internally resolved max-entry count is `0`, which the option value
`0` itself never yields — though a fractional option below 1 does,
through `Math.floor`. -/
theorem cache_c2_amended :
    resolveCacheConfig zeroMaxOptions
        = { ttlMs := DEFAULT_CACHE_TTL_MS, maxEntries := DEFAULT_CACHE_MAX_ENTRIES }
    ∧ (∀ (now : Int) (keyword : String) (ms : List SymbolSearchMatch) (st : CacheState),
        cacheSet (resolveCacheConfig zeroMaxOptions) now keyword ms st
          = cacheSet (resolveCacheConfig {}) now keyword ms st)
    ∧ (∀ (now : Int) (keyword : String) (ms : List SymbolSearchMatch),
        normalizeSymbolSearchKeyword keyword ≠ "" →
        cacheSize (cacheSet (resolveCacheConfig zeroMaxOptions) now keyword ms
            emptyCacheState) = 1
        ∧ (cacheGet now keyword
            (cacheSet (resolveCacheConfig zeroMaxOptions) now keyword ms
              emptyCacheState)).1 = some ms)
    ∧ (∀ (cfg : SymbolSearchCacheConfig) (now : Int) (keyword : String)
        (ms : List SymbolSearchMatch) (st : CacheState),
        cfg.maxEntries = 0 → cacheSet cfg now keyword ms st = st)
    ∧ (resolveCacheConfig { ttlMs := none, maxEntries := some (1 / 2 : ℚ) }).maxEntries = 0 := by
  have hres : resolveCacheConfig zeroMaxOptions
      = { ttlMs := DEFAULT_CACHE_TTL_MS, maxEntries := DEFAULT_CACHE_MAX_ENTRIES } := by
    simp [resolveCacheConfig, zeroMaxOptions]
  refine ⟨hres, ?_, ?_, ?_, ?_⟩
  · intro now keyword ms st
    rw [hres]
    rfl
  · intro now keyword ms h
    rw [hres]
    have hmax : ¬ ((DEFAULT_CACHE_MAX_ENTRIES : Int) = 0) := by
      simp [DEFAULT_CACHE_MAX_ENTRIES]
    have hset : cacheSet { ttlMs := DEFAULT_CACHE_TTL_MS, maxEntries := DEFAULT_CACHE_MAX_ENTRIES }
        now keyword ms emptyCacheState
        = { accessSequence := 1,
            entries := [((normalizeSymbolSearchKeyword keyword),
              { matchList := cloneMatches ms,
                expiresAt := now + DEFAULT_CACHE_TTL_MS,
                lastAccessed := 1 })] } := by
      simp only [cacheSet]
      rw [if_neg hmax, if_neg h]
      simp only [emptyCacheState, mapSet, List.any_nil, Bool.false_eq_true, if_false,
        List.nil_append, List.length_cons, List.length_nil]
      rw [if_neg (by simp [DEFAULT_CACHE_MAX_ENTRIES])]
    rw [hset]
    constructor
    · rfl
    · have hexp : ¬ (now + DEFAULT_CACHE_TTL_MS ≤ now) := by
        simp only [DEFAULT_CACHE_TTL_MS]
        omega
      simp [cacheGet, mapGet, h, hexp, cloneMatches]
  · intro cfg now keyword ms st h0
    simp [cacheSet, h0]
  · have hpos : (1 / 2 : ℚ) > 0 := by norm_num
    simp only [resolveCacheConfig, if_pos hpos]
    norm_num

theorem cache_c2_amended_witness :
    normalizeSymbolSearchKeyword "aapl" ≠ ""
    ∧ cacheSize (cacheSet (resolveCacheConfig zeroMaxOptions) 0 "aapl" [aaplMatch]
        emptyCacheState) = 1
    ∧ (cacheGet 0 "aapl"
        (cacheSet (resolveCacheConfig zeroMaxOptions) 0 "aapl" [aaplMatch]
          emptyCacheState)).1 = some [aaplMatch]
    ∧ cacheSet { ttlMs := 1000, maxEntries := 0 } 0 "aapl" [aaplMatch] emptyCacheState
        = emptyCacheState :=
  ⟨by decide,
   (cache_c2_amended.2.2.1 0 "aapl" [aaplMatch] (by decide)).1,
   (cache_c2_amended.2.2.1 0 "aapl" [aaplMatch] (by decide)).2,
   cache_c2_amended.2.2.2.1 { ttlMs := 1000, maxEntries := 0 } 0 "aapl" [aaplMatch]
     emptyCacheState rfl⟩

attribute [ext] LeagueEntry

lemma jsRound_intCast (n : Int) : jsRound ((n : ℚ)) = n := by
  rw [jsRound, Int.floor_eq_iff]
  constructor
  · linarith
  · have : ((n : ℚ) + 1 : ℚ) = ((n + 1 : Int) : ℚ) := by push_cast; ring
    linarith [this]

lemma coerceIntPoints_num_int (n : Int) : coerceIntPoints (JSVal.num (n : ℚ)) = n := by
  simp [coerceIntPoints, jsCoalesce, jsToNumber, jsRound_intCast]

lemma isPrediction_toRaw (p : SPrediction) : isPrediction (sanitizedPredictionToRaw p) = true := by
  rcases p with ⟨pid, psym, ppred, pper, pmade, ptarget, popen, pclose, pstat, puser⟩
  cases ppred <;> cases pper <;> cases pstat <;>
    simp [isPrediction, sanitizedPredictionToRaw, isStr, directionToString, periodToString,
      statusToString]

lemma sanitizePrediction_toRaw (username : String) (p : SPrediction) (hu : p.user = username) :
    sanitizePrediction username (sanitizedPredictionToRaw p) = p := by
  rcases p with ⟨pid, psym, ppred, pper, pmade, ptarget, popen, pclose, pstat, puser⟩
  simp only [SPrediction.user] at hu
  subst hu
  cases ppred <;> cases pper <;> cases pstat <;> rcases popen with _ | q <;>
      rcases pclose with _ | r <;>
    simp [sanitizePrediction, sanitizedPredictionToRaw, directionToString, periodToString,
      statusToString]

lemma sanitizeUserEntry_user (username : String) (e : RawEntry) (nowISO : String) :
    ∀ p ∈ (sanitizeUserEntry username e nowISO).predictions, p.user = username := by
  intro p hp
  rcases List.mem_map.mp hp with ⟨rp, _, rfl⟩
  rfl

lemma sanitizeUserEntry_pointsS1_of_nonempty (username : String) (e : RawEntry) (nowISO : String)
    (h : (sanitizeUserEntry username e nowISO).predictions.length > 0) :
    (sanitizeUserEntry username e nowISO).pointsS1
      = jsRound (calculateSystem1Points (sanitizeUserEntry username e nowISO).predictions) := by
  simp only [sanitizeUserEntry] at h ⊢
  rw [if_pos h]

lemma sanitizeUserEntry_pointsS2_of_nonempty (username : String) (e : RawEntry) (nowISO : String)
    (h : (sanitizeUserEntry username e nowISO).predictions.length > 0) :
    (sanitizeUserEntry username e nowISO).pointsS2
      = jsRound (calculateSystem2Points (sanitizeUserEntry username e nowISO).predictions) := by
  simp only [sanitizeUserEntry] at h ⊢
  rw [if_pos h]

lemma sanitizeUserEntry_updatedAt_empty (username : String) (e : RawEntry) (nowISO : String)
    (h : (sanitizeUserEntry username e nowISO).updatedAt = "") :
    (sanitizeUserEntry username e nowISO).updatedAt = nowISO := by
  simp only [sanitizeUserEntry] at h ⊢
  rcases hu : e.updatedAt with q | s | _ | _ | b
  · rfl
  · rw [hu] at h
    by_cases hs : s = ""
    · simp [hs]
    · simp [hs] at h
  · rfl
  · rfl
  · rfl

/-- Feeding a canonical entry whose fields already satisfy the
sanitizer's own output constraints back through the sanitizer returns it
unchanged. -/
lemma sanitize_on_canonical (username nowISO : String) (E : LeagueEntry)
    (husers : ∀ p ∈ E.predictions, p.user = username)
    (hpoints1 : E.predictions.length > 0 →
      E.pointsS1 = jsRound (calculateSystem1Points E.predictions))
    (hpoints2 : E.predictions.length > 0 →
      E.pointsS2 = jsRound (calculateSystem2Points E.predictions))
    (hupd : E.updatedAt = "" → E.updatedAt = nowISO) :
    sanitizeUserEntry username (leagueEntryToRaw E) nowISO = E := by
  have hfilter : (E.predictions.map sanitizedPredictionToRaw).filter isPrediction
      = E.predictions.map sanitizedPredictionToRaw := by
    apply List.filter_eq_self.mpr
    intro rp hrp
    rcases List.mem_map.mp hrp with ⟨p, _, rfl⟩
    exact isPrediction_toRaw p
  have hpreds : (((leagueEntryToRaw E).predictions.getD []).filter isPrediction).map
      (sanitizePrediction username) = E.predictions := by
    have hgd : (leagueEntryToRaw E).predictions.getD [] = E.predictions.map sanitizedPredictionToRaw := rfl
    rw [hgd, hfilter, List.map_map]
    have hcongr : ∀ p ∈ E.predictions,
        (sanitizePrediction username ∘ sanitizedPredictionToRaw) p = id p := fun p hp =>
      sanitizePrediction_toRaw username p (husers p hp)
    rw [List.map_congr_left hcongr, List.map_id]
  refine LeagueEntry.ext ?_ ?_ ?_ ?_
  · rw [show (sanitizeUserEntry username (leagueEntryToRaw E) nowISO).predictions
        = (((leagueEntryToRaw E).predictions.getD []).filter isPrediction).map
            (sanitizePrediction username) from rfl, hpreds]
  · show (if (((((leagueEntryToRaw E).predictions.getD []).filter isPrediction).map
          (sanitizePrediction username)).length > 0)
        then jsRound (calculateSystem1Points ((((leagueEntryToRaw E).predictions.getD
          []).filter isPrediction).map (sanitizePrediction username)))
        else coerceIntPoints (leagueEntryToRaw E).pointsS1) = E.pointsS1
    rw [hpreds]
    by_cases hne : E.predictions.length > 0
    · rw [if_pos hne, (hpoints1 hne)]
    · rw [if_neg hne]
      exact coerceIntPoints_num_int E.pointsS1
  · show (if (((((leagueEntryToRaw E).predictions.getD []).filter isPrediction).map
          (sanitizePrediction username)).length > 0)
        then jsRound (calculateSystem2Points ((((leagueEntryToRaw E).predictions.getD
          []).filter isPrediction).map (sanitizePrediction username)))
        else coerceIntPoints (leagueEntryToRaw E).pointsS2) = E.pointsS2
    rw [hpreds]
    by_cases hne : E.predictions.length > 0
    · rw [if_pos hne, (hpoints2 hne)]
    · rw [if_neg hne]
      exact coerceIntPoints_num_int E.pointsS2
  · show (if E.updatedAt ≠ "" then E.updatedAt else nowISO) = E.updatedAt
    by_cases hu : E.updatedAt = ""
    · rw [if_neg (by simp [hu])]
      exact (hupd hu).symm
    · rw [if_pos hu]

/-- C7: with a fixed current-instant source, sanitizing a sanitizer
output again under the same username returns it unchanged. -/
theorem sanitize_c7_idempotent (username : String) (e : RawEntry) (nowISO : String) :
    sanitizeUserEntry username (leagueEntryToRaw (sanitizeUserEntry username e nowISO)) nowISO
      = sanitizeUserEntry username e nowISO :=
  sanitize_on_canonical username nowISO (sanitizeUserEntry username e nowISO)
    (sanitizeUserEntry_user username e nowISO)
    (sanitizeUserEntry_pointsS1_of_nonempty username e nowISO)
    (sanitizeUserEntry_pointsS2_of_nonempty username e nowISO)
    (sanitizeUserEntry_updatedAt_empty username e nowISO)

/-! ### Association-list lemmas for the cache and the merge resolver -/

lemma cloneMatches_id (ms : List SymbolSearchMatch) : cloneMatches ms = ms :=
  List.map_id' ms

lemma map_replace_of_not_any {α : Type} (t : List (String × α)) (k : String) (v : α)
    (h : t.any (fun q => q.1 = k) = false) :
    t.map (fun q => if q.1 = k then (k, v) else q) = t := by
  have hcongr : t.map (fun q => if q.1 = k then (k, v) else q) = t.map id := by
    apply List.map_congr_left
    intro q hq
    have hne : ¬ q.1 = k := by
      intro hk
      have : t.any (fun q => q.1 = k) = true := List.any_eq_true.mpr ⟨q, hq, by simp [hk]⟩
      rw [this] at h
      cases h
    simp [hne]
  rw [hcongr, List.map_id]

lemma mapGet_map_replace_self {α : Type} (t : List (String × α)) (k : String) (v : α)
    (h : t.any (fun q => q.1 = k) = true) :
    mapGet (t.map (fun q => if q.1 = k then (k, v) else q)) k = some v := by
  induction t with
  | nil => simp at h
  | cons p t2 ih =>
    rcases p with ⟨a, b⟩
    by_cases ha : a = k
    · simp [mapGet, ha]
    · have h2 : t2.any (fun q => q.1 = k) = true := by
        simpa [List.any_cons, ha] using h
      simp only [List.map_cons]
      rw [show (if (a, b).1 = k then (k, v) else (a, b)) = (a, b) by simp [ha]]
      simp only [mapGet, ha, if_false]
      exact ih h2

lemma mapGet_map_replace_ne {α : Type} (t : List (String × α)) (k k2 : String) (v : α)
    (h : k2 ≠ k) :
    mapGet (t.map (fun q => if q.1 = k then (k, v) else q)) k2 = mapGet t k2 := by
  induction t with
  | nil => simp [mapGet]
  | cons p t2 ih =>
    rcases p with ⟨a, b⟩
    simp only [List.map_cons]
    by_cases ha : a = k
    · have hne : ¬ (k = k2) := fun hk => h hk.symm
      have hne2 : ¬ (a = k2) := by rw [ha]; exact hne
      simp [mapGet, ha, hne, hne2, ih]
    · by_cases ha2 : a = k2
      · simp [mapGet, ha, ha2, h]
      · simp [mapGet, ha, ha2, ih]

lemma mapGet_append_single_ne {α : Type} (m : List (String × α)) (k k2 : String) (v : α)
    (h : k2 ≠ k) : mapGet (m ++ [(k, v)]) k2 = mapGet m k2 := by
  induction m with
  | nil =>
    have hne : ¬ (k = k2) := fun hk => h hk.symm
    simp [mapGet, hne]
  | cons p t ih =>
    rcases p with ⟨a, b⟩
    by_cases ha : a = k2
    · simp [mapGet, ha]
    · simp only [List.cons_append, mapGet, ha, if_false]
      exact ih

lemma mapGet_append_single_self {α : Type} (m : List (String × α)) (k : String) (v : α)
    (h : m.any (fun q => q.1 = k) = false) : mapGet (m ++ [(k, v)]) k = some v := by
  induction m with
  | nil => simp [mapGet]
  | cons p t ih =>
    rcases p with ⟨a, b⟩
    have ha : ¬ a = k := by
      intro hk
      have : ((a, b) :: t).any (fun q => q.1 = k) = true := by simp [List.any_cons, hk]
      rw [this] at h
      cases h
    have ht : t.any (fun q => q.1 = k) = false := by
      simpa [List.any_cons, ha] using h
    simp only [List.cons_append, mapGet, ha, if_false]
    exact ih ht

lemma mapGet_mapSet_self {α : Type} (m : List (String × α)) (k : String) (v : α) :
    mapGet (mapSet m k v) k = some v := by
  rw [mapSet]
  by_cases hany : m.any (fun q => q.1 = k) = true
  · rw [if_pos hany]
    exact mapGet_map_replace_self m k v hany
  · rw [if_neg hany]
    exact mapGet_append_single_self m k v (Bool.eq_false_iff.mpr hany)

lemma mapGet_mapSet_ne {α : Type} (m : List (String × α)) (k k2 : String) (v : α)
    (h : k2 ≠ k) : mapGet (mapSet m k v) k2 = mapGet m k2 := by
  rw [mapSet]
  by_cases hany : m.any (fun q => q.1 = k) = true
  · rw [if_pos hany]
    exact mapGet_map_replace_ne m k k2 v h
  · rw [if_neg hany]
    exact mapGet_append_single_ne m k k2 v h

lemma mem_mapSet_cases {α : Type} (m : List (String × α)) (k : String) (v : α)
    (p : String × α) (hp : p ∈ mapSet m k v) :
    p = (k, v) ∨ (p ∈ m ∧ p.1 ≠ k) := by
  rw [mapSet] at hp
  by_cases hany : m.any (fun q => q.1 = k) = true
  · rw [if_pos hany] at hp
    rcases List.mem_map.mp hp with ⟨q, hq, hqe⟩
    by_cases hqk : q.1 = k
    · rw [if_pos hqk] at hqe
      exact Or.inl hqe.symm
    · rw [if_neg hqk] at hqe
      exact Or.inr ⟨hqe ▸ hq, hqe ▸ hqk⟩
  · rw [if_neg hany] at hp
    rcases List.mem_append.mp hp with hl | hr
    · have hne : p.1 ≠ k := by
        intro hk
        apply hany
        exact List.any_eq_true.mpr ⟨p, hl, by simp [hk]⟩
      exact Or.inr ⟨hl, hne⟩
    · simp only [List.mem_singleton] at hr
      exact Or.inl hr

lemma keys_mapSet {α : Type} (m : List (String × α)) (k : String) (v : α) :
    (mapSet m k v).map Prod.fst =
      if m.any (fun q => q.1 = k) then m.map Prod.fst else m.map Prod.fst ++ [k] := by
  rw [mapSet]
  by_cases hany : m.any (fun q => q.1 = k) = true
  · rw [if_pos hany, if_pos hany, List.map_map]
    apply List.map_congr_left
    intro q _
    by_cases hq : q.1 = k
    · simp [hq]
    · simp [hq]
  · rw [if_neg hany, if_neg hany]
    simp

lemma keys_mapSet_nodup {α : Type} (m : List (String × α)) (k : String) (v : α)
    (h : (m.map Prod.fst).Nodup) : ((mapSet m k v).map Prod.fst).Nodup := by
  rw [keys_mapSet]
  by_cases hany : m.any (fun q => q.1 = k) = true
  · rw [if_pos hany]
    exact h
  · rw [if_neg hany]
    have hk : k ∉ m.map Prod.fst := by
      intro hmem
      apply hany
      rcases List.mem_map.mp hmem with ⟨q, hq, hqe⟩
      exact List.any_eq_true.mpr ⟨q, hq, by simp [hqe]⟩
    simp [List.nodup_append, h, hk]

lemma mapGet_mapDelete_ne {α : Type} (m : List (String × α)) (k k2 : String) (h : k2 ≠ k) :
    mapGet (mapDelete m k) k2 = mapGet m k2 := by
  induction m with
  | nil => simp [mapDelete]
  | cons p t ih =>
    rcases p with ⟨a, b⟩
    by_cases ha : a = k
    · have hbeq : ((a, b).1 == k) = true := by simp [ha]
      rw [mapDelete, List.eraseP_cons, hbeq, cond_true]
      have hne : ¬ (a = k2) := by rw [ha]; exact fun hk => h hk.symm
      simp [mapGet, hne]
    · have hbeq : ((a, b).1 == k) = false := by simp [ha]
      rw [mapDelete, List.eraseP_cons, hbeq, cond_false]
      by_cases ha2 : a = k2
      · simp [mapGet, ha2]
      · simp only [mapGet, ha2, if_false]
        rw [← mapDelete]
        exact ih

lemma length_mapDelete {α : Type} (m : List (String × α)) (k : String) (v : α)
    (h : mapGet m k = some v) : (mapDelete m k).length + 1 = m.length := by
  induction m generalizing v with
  | nil => simp [mapGet] at h
  | cons p t ih =>
    rcases p with ⟨a, b⟩
    by_cases ha : a = k
    · have hbeq : ((a, b).1 == k) = true := by simp [ha]
      rw [mapDelete, List.eraseP_cons, hbeq, cond_true]
      simp
    · have hlk : mapGet t k = some v := by
        simpa [mapGet, ha] using h
      have hbeq : ((a, b).1 == k) = false := by simp [ha]
      rw [mapDelete, List.eraseP_cons, hbeq, cond_false]
      have hih := ih v hlk
      rw [mapDelete] at hih
      simp only [List.length_cons]
      omega

lemma mapGet_some_mem {α : Type} (m : List (String × α)) (k : String) (v : α)
    (h : mapGet m k = some v) : (k, v) ∈ m := by
  induction m with
  | nil => simp [mapGet] at h
  | cons p t ih =>
    rcases p with ⟨a, b⟩
    by_cases ha : a = k
    · have : b = v := by simpa [mapGet, ha] using h
      subst ha this
      exact List.mem_cons_self _ _
    · have hlk : mapGet t k = some v := by simpa [mapGet, ha] using h
      exact List.mem_cons_of_mem _ (ih hlk)

/-- The strict-minimum scan of the eviction code returns an entry of the
list carrying the least recency marker. -/
lemma cacheOldestKey_spec (l : List (String × CacheEntry)) (hne : l ≠ []) :
    ∃ k e, cacheOldestKey l = some k ∧ (k, e) ∈ l
      ∧ ∀ q ∈ l, e.lastAccessed ≤ q.2.lastAccessed := by
  have main : ∀ (t : List (String × CacheEntry)) (b : String × CacheEntry),
      ∃ r, t.foldl
          (fun best p =>
            match best with
            | none => some p
            | some q => if p.2.lastAccessed < q.2.lastAccessed then some p else q)
          (some b) = some r
        ∧ (r = b ∨ r ∈ t) ∧ r.2.lastAccessed ≤ b.2.lastAccessed
        ∧ ∀ q ∈ t, r.2.lastAccessed ≤ q.2.lastAccessed := by
    intro t
    induction t with
    | nil => exact fun b => ⟨b, rfl, Or.inl rfl, le_refl _, by simp⟩
    | cons p t2 ih =>
      intro b
      by_cases hlt : p.2.lastAccessed < b.2.lastAccessed
      · rcases ih p with ⟨r, hfold, hmem, hle, hall⟩
        refine ⟨r, ?_, ?_, ?_, ?_⟩
        · simpa [hlt] using hfold
        · rcases hmem with h | h
          · exact Or.inr (by simp [h])
          · exact Or.inr (List.mem_cons_of_mem p h)
        · omega
        · intro q hq
          rcases List.mem_cons.mp hq with h | h
          · rw [h]; exact hle
          · exact hall q h
      · rcases ih b with ⟨r, hfold, hmem, hle, hall⟩
        refine ⟨r, ?_, ?_, ?_, ?_⟩
        · simpa [hlt] using hfold
        · rcases hmem with h | h
          · exact Or.inl h
          · exact Or.inr (List.mem_cons_of_mem p h)
        · exact hle
        · intro q hq
          rcases List.mem_cons.mp hq with h | h
          · rw [h]; omega
          · exact hall q h
  rcases l with _ | ⟨p, t⟩
  · cases hne rfl
  · rcases main t p with ⟨r, hfold, hmem, hle, hall⟩
    refine ⟨r.1, r.2, ?_, ?_, ?_⟩
    · rw [cacheOldestKey]
      simp only [List.foldl_cons]
      rw [hfold]
      rfl
    · rcases hmem with h | h
      · rw [h]; exact List.mem_cons_self p t
      · exact List.mem_cons_of_mem p h
    · intro q hq
      rcases List.mem_cons.mp hq with h | h
      · rw [h]; exact hle
      · exact hall q h

/-- Well-formed cache state: every stored recency marker is at most the
access counter, and the stored keys are distinct.  The empty initial
state is well formed and every cache operation preserves the property. -/
def CacheWF (st : CacheState) : Prop :=
  (∀ p ∈ st.entries, p.2.lastAccessed ≤ st.accessSequence)
    ∧ (st.entries.map Prod.fst).Nodup

/-- With distinct keys and at least two entries, some entry has a key
different from any given one. -/
lemma exists_other_key (l : List (String × CacheEntry)) (k : String)
    (hnd : (l.map Prod.fst).Nodup) (hlen : 2 ≤ l.length) :
    ∃ q ∈ l, q.1 ≠ k := by
  rcases l with _ | ⟨p1, t⟩
  · simp at hlen
  rcases t with _ | ⟨p2, t2⟩
  · simp at hlen
  by_cases h1 : p1.1 = k
  · refine ⟨p2, by simp, ?_⟩
    intro h2
    simp only [List.map_cons, List.nodup_cons] at hnd
    exact hnd.1 (by simp [h1, h2])
  · exact ⟨p1, by simp, h1⟩

/-- After a `set` on a well-formed cache the stored entry is found under
the normalized key: the single LRU eviction that may follow the insert
never removes the entry just written, because its recency marker is
strictly above every other marker. -/
lemma cacheSet_lookup_self (cfg : SymbolSearchCacheConfig) (st : CacheState) (now : Int)
    (keyword : String) (ms : List SymbolSearchMatch) (hwf : CacheWF st)
    (hmax : 1 ≤ cfg.maxEntries) (h1 : normalizeSymbolSearchKeyword keyword ≠ "") :
    mapGet (cacheSet cfg now keyword ms st).entries (normalizeSymbolSearchKeyword keyword)
      = some { matchList := cloneMatches ms, expiresAt := now + cfg.ttlMs,
               lastAccessed := st.accessSequence + 1 } := by
  have hmax0 : ¬ (cfg.maxEntries = 0) := by omega
  set nk := normalizeSymbolSearchKeyword keyword with hnk
  set newE : CacheEntry :=
    { matchList := cloneMatches ms, expiresAt := now + cfg.ttlMs,
      lastAccessed := st.accessSequence + 1 } with hnewE
  simp only [cacheSet]
  rw [if_neg hmax0, if_neg h1]
  by_cases hover : ((mapSet st.entries nk newE).length : Int) > cfg.maxEntries
  · rw [if_pos hover]
    have hne : mapSet st.entries nk newE ≠ [] := by
      intro h0
      rw [h0] at hover
      simp at hover
      omega
    rcases cacheOldestKey_spec _ hne with ⟨ok, oe, hok, hmem, hmin⟩
    rw [hok]
    dsimp only
    by_cases hok0 : ok = ""
    · rw [if_pos hok0]
      exact mapGet_mapSet_self st.entries nk newE
    · rw [if_neg hok0]
      have hokne : ok ≠ nk := by
        intro heq
        rw [heq] at hmem
        have hoe : oe = newE := by
          rcases mem_mapSet_cases st.entries nk newE (nk, oe) hmem with hcase | hcase
          · exact congrArg Prod.snd hcase
          · exact absurd rfl hcase.2
        have hlen2 : 2 ≤ (mapSet st.entries nk newE).length := by omega
        rcases exists_other_key _ nk (keys_mapSet_nodup st.entries nk newE hwf.2) hlen2 with
          ⟨q, hq, hqne⟩
        have hqmem : q ∈ st.entries := by
          rcases mem_mapSet_cases st.entries nk newE q hq with hcase | hcase
          · exact absurd (congrArg Prod.fst hcase) hqne
          · exact hcase.1
        have hqle : q.2.lastAccessed ≤ st.accessSequence := hwf.1 q hqmem
        have hminq := hmin q hq
        rw [hoe] at hminq
        simp only [hnewE] at hminq
        omega
      rw [mapGet_mapDelete_ne _ ok nk (Ne.symm hokne)]
      exact mapGet_mapSet_self st.entries nk newE
  · rw [if_neg hover]
    exact mapGet_mapSet_self st.entries nk newE

/-- C8: `get` behavior.  An empty normalized key or a miss return null
and leave the state unchanged (and `set('AAPL')` then `get('aapl')` meet
on the same normalized key); a stored entry whose expiry has passed is
removed (the size drops by one) with null returned; a live entry is
returned by value with its recency marker bumped to the fresh sequence
value; and a `get` right after a `set` on a well-formed cache returns a
copy equal to the stored matches. -/
theorem cacheGet_c8 :
    (∀ (now : Int) (keyword : String) (st : CacheState),
      normalizeSymbolSearchKeyword keyword = "" → cacheGet now keyword st = (none, st))
    ∧ (∀ (now : Int) (keyword : String) (st : CacheState),
        mapGet st.entries (normalizeSymbolSearchKeyword keyword) = none →
        cacheGet now keyword st = (none, st))
    ∧ (∀ (now : Int) (keyword : String) (st : CacheState) (entry : CacheEntry),
        normalizeSymbolSearchKeyword keyword ≠ "" →
        mapGet st.entries (normalizeSymbolSearchKeyword keyword) = some entry →
        entry.expiresAt ≤ now →
        (cacheGet now keyword st).1 = none
        ∧ cacheSize (cacheGet now keyword st).2 + 1 = cacheSize st)
    ∧ (∀ (now : Int) (keyword : String) (st : CacheState) (entry : CacheEntry),
        normalizeSymbolSearchKeyword keyword ≠ "" →
        mapGet st.entries (normalizeSymbolSearchKeyword keyword) = some entry →
        now < entry.expiresAt →
        (cacheGet now keyword st).1 = some entry.matchList
        ∧ (cacheGet now keyword st).2.accessSequence = st.accessSequence + 1
        ∧ mapGet (cacheGet now keyword st).2.entries (normalizeSymbolSearchKeyword keyword)
            = some { entry with lastAccessed := st.accessSequence + 1 })
    ∧ (∀ (cfg : SymbolSearchCacheConfig) (st : CacheState) (now now2 : Int)
        (keyword1 keyword2 : String) (ms : List SymbolSearchMatch),
        CacheWF st → 1 ≤ cfg.maxEntries →
        normalizeSymbolSearchKeyword keyword1 ≠ "" →
        normalizeSymbolSearchKeyword keyword1 = normalizeSymbolSearchKeyword keyword2 →
        now2 < now + cfg.ttlMs →
        (cacheGet now2 keyword2 (cacheSet cfg now keyword1 ms st)).1 = some ms) := by
  refine ⟨?_, ?_, ?_, ?_, ?_⟩
  · intro now keyword st h
    simp [cacheGet, h]
  · intro now keyword st h
    by_cases h0 : normalizeSymbolSearchKeyword keyword = ""
    · simp [cacheGet, h0]
    · simp [cacheGet, h0, h]
  · intro now keyword st entry h1 h2 h3
    constructor
    · simp [cacheGet, h1, h2, h3]
    · simp only [cacheGet]
      rw [if_neg h1, h2]
      simp only [if_pos h3, cacheSize]
      exact length_mapDelete st.entries _ entry h2
  · intro now keyword st entry h1 h2 h3
    have hexp : ¬ (entry.expiresAt ≤ now) := by omega
    refine ⟨?_, ?_, ?_⟩
    · simp [cacheGet, h1, h2, hexp, cloneMatches_id]
    · simp [cacheGet, h1, h2, hexp]
    · simp only [cacheGet]
      rw [if_neg h1, h2]
      simp only [if_neg hexp]
      exact mapGet_mapSet_self st.entries _ _
  · intro cfg st now now2 keyword1 keyword2 ms hwf hmax h1 h12 hlt
    have hlook := cacheSet_lookup_self cfg st now keyword1 ms hwf hmax h1
    have hn2 : normalizeSymbolSearchKeyword keyword2 = normalizeSymbolSearchKeyword keyword1 :=
      h12.symm
    have h1b : ¬ (normalizeSymbolSearchKeyword keyword1 = "") := h1
    have hexp : ¬ ((now + cfg.ttlMs : Int) ≤ now2) := by omega
    simp only [cacheGet, hn2]
    rw [if_neg h1b, hlook]
    simp only [if_neg hexp]
    simp [cloneMatches_id]

def defaultTestOptions : SymbolSearchCacheOptions :=
  { ttlMs := some 1000, maxEntries := none }

theorem cacheGet_c8_witness :
    CacheWF emptyCacheState
    ∧ 1 ≤ (resolveCacheConfig defaultTestOptions).maxEntries
    ∧ normalizeSymbolSearchKeyword "AAPL" ≠ ""
    ∧ normalizeSymbolSearchKeyword "AAPL" = normalizeSymbolSearchKeyword "aapl"
    ∧ (cacheGet 500 "aapl"
        (cacheSet (resolveCacheConfig defaultTestOptions) 0 "AAPL" [aaplMatch]
          emptyCacheState)).1 = some [aaplMatch] :=
  ⟨⟨by simp [emptyCacheState], by simp [emptyCacheState]⟩, by decide, by decide, by decide,
   cacheGet_c8.2.2.2.2 (resolveCacheConfig defaultTestOptions) emptyCacheState 0 500
     "AAPL" "aapl" [aaplMatch] ⟨by simp [emptyCacheState], by simp [emptyCacheState]⟩
     (by decide) (by decide) (by decide) (by decide)⟩

/-- A username/value pair of the incoming collection that the merge does
not skip: an object value under a nonempty, non-excluded username. -/
def mergeValidPair (exclude : List String) (pair : String × RawEntryVal) : Bool :=
  match pair.2 with
  | .notObj => false
  | .obj _ => ! decide (pair.1 = "" ∨ pair.1 ∈ exclude)

/-- The incoming pairs that the merge inserts: valid and without an
existing counterpart in the initial collection. -/
def mergeAddPred (exclude : List String) (m0 : List (String × LeagueEntry))
    (pair : String × RawEntryVal) : Bool :=
  mergeValidPair exclude pair && (mapGet m0 pair.1).isNone

/-- The incoming pairs that the merge overwrites: valid, with an
existing counterpart that `shouldReplaceUserEntry` decides against. -/
def mergeUpdPred (exclude : List String) (nowISO : String)
    (m0 : List (String × LeagueEntry)) (pair : String × RawEntryVal) : Bool :=
  match pair.2 with
  | .notObj => false
  | .obj raw =>
    ! decide (pair.1 = "" ∨ pair.1 ∈ exclude) &&
      match mapGet m0 pair.1 with
      | none => false
      | some e => shouldReplaceUserEntry e (sanitizeUserEntry pair.1 raw nowISO)

lemma mergeValidPair_true (exclude : List String) (pair : String × RawEntryVal)
    (h : mergeValidPair exclude pair = true) :
    pair.1 ≠ "" ∧ pair.1 ∉ exclude ∧ ∃ raw, pair.2 = RawEntryVal.obj raw := by
  rcases pair with ⟨u, v⟩
  cases v with
  | notObj => simp [mergeValidPair] at h
  | obj raw =>
    simp only [mergeValidPair, Bool.not_eq_true', decide_eq_false_iff_not] at h
    push_neg at h
    exact ⟨h.1, h.2, raw, rfl⟩

/-- Characterization of the merge fold: relative to any starting
accumulator agreeing with the reference collection `m0` on the incoming
keys, the fold appends exactly the add-predicate keys to `added`, the
update-predicate keys to `updated`, leaves other keys of the merged map
untouched, and maps every processed key to the winner of the
`shouldReplaceUserEntry` decision. -/
lemma mergeFold_spec (exclude : List String) (nowISO : String)
    (m0 : List (String × LeagueEntry)) :
    ∀ (inc : List (String × RawEntryVal)) (acc : MergeSummary),
      (inc.map Prod.fst).Nodup →
      (∀ u ∈ inc.map Prod.fst, mapGet acc.mergedUsers u = mapGet m0 u) →
      (inc.foldl (mergeStep nowISO exclude) acc).added
          = acc.added ++ (inc.filter (mergeAddPred exclude m0)).map Prod.fst
      ∧ (inc.foldl (mergeStep nowISO exclude) acc).updated
          = acc.updated ++ (inc.filter (mergeUpdPred exclude nowISO m0)).map Prod.fst
      ∧ (∀ u, u ∉ inc.map Prod.fst →
          mapGet (inc.foldl (mergeStep nowISO exclude) acc).mergedUsers u
            = mapGet acc.mergedUsers u)
      ∧ (∀ u raw, (u, RawEntryVal.obj raw) ∈ inc → u ≠ "" → u ∉ exclude →
          mapGet (inc.foldl (mergeStep nowISO exclude) acc).mergedUsers u
            = (match mapGet m0 u with
               | none => some (sanitizeUserEntry u raw nowISO)
               | some e =>
                 if shouldReplaceUserEntry e (sanitizeUserEntry u raw nowISO)
                 then some (sanitizeUserEntry u raw nowISO) else some e)) := by
  intro inc
  induction inc with
  | nil =>
    intro acc _ _
    refine ⟨by simp, by simp, fun u _ => rfl, fun u raw h => absurd h (List.not_mem_nil _)⟩
  | cons hd t ih =>
    intro acc hnd hagree
    rcases hd with ⟨u, v⟩
    have hndc : u ∉ t.map Prod.fst ∧ (t.map Prod.fst).Nodup := by
      rw [List.map_cons, List.nodup_cons] at hnd
      exact hnd
    obtain ⟨hu_notin, hndt⟩ := hndc
    cases v with
    | notObj =>
      have hfold : ((u, RawEntryVal.notObj) :: t).foldl (mergeStep nowISO exclude) acc
          = t.foldl (mergeStep nowISO exclude) acc := by
        rw [List.foldl_cons]
        rfl
      have hagree2 : ∀ u2 ∈ t.map Prod.fst, mapGet acc.mergedUsers u2 = mapGet m0 u2 :=
        fun u2 h2 => hagree u2 (by simp [h2])
      rcases ih acc hndt hagree2 with ⟨h1, h2, h3, h4⟩
      refine ⟨?_, ?_, ?_, ?_⟩
      · rw [hfold, h1]
        simp [List.filter_cons, mergeAddPred, mergeValidPair]
      · rw [hfold, h2]
        simp [List.filter_cons, mergeUpdPred]
      · intro u2 hu2
        rw [hfold]
        exact h3 u2 (fun hm => hu2 (by simp [hm]))
      · intro u2 raw2 hmem hne hnex
        rw [hfold]
        rcases List.mem_cons.mp hmem with hh | hh
        · simp at hh
        · exact h4 u2 raw2 hh hne hnex
    | obj raw =>
      by_cases hskip : u = "" ∨ u ∈ exclude
      · have hfold : ((u, RawEntryVal.obj raw) :: t).foldl (mergeStep nowISO exclude) acc
            = t.foldl (mergeStep nowISO exclude) acc := by
          rw [List.foldl_cons]
          simp only [mergeStep]
          rw [if_pos hskip]
        have hagree2 : ∀ u2 ∈ t.map Prod.fst, mapGet acc.mergedUsers u2 = mapGet m0 u2 :=
          fun u2 h2 => hagree u2 (by simp [h2])
        rcases ih acc hndt hagree2 with ⟨h1, h2, h3, h4⟩
        refine ⟨?_, ?_, ?_, ?_⟩
        · rw [hfold, h1]
          simp [List.filter_cons, mergeAddPred, mergeValidPair, hskip]
        · rw [hfold, h2]
          simp [List.filter_cons, mergeUpdPred, hskip]
        · intro u2 hu2
          rw [hfold]
          exact h3 u2 (fun hm => hu2 (by simp [hm]))
        · intro u2 raw2 hmem hne hnex
          rw [hfold]
          rcases List.mem_cons.mp hmem with hh | hh
          · exfalso
            have hu2 : u2 = u := (Prod.mk.injEq _ _ _ _).mp hh |>.1
            rcases hskip with hcase | hcase
            · exact hne (hu2.trans hcase)
            · exact hnex (hu2 ▸ hcase)
          · exact h4 u2 raw2 hh hne hnex
      · have hagree_u : mapGet acc.mergedUsers u = mapGet m0 u := hagree u (by simp)
        cases hm0 : mapGet m0 u with
        | none =>
          have hlookup : mapGet acc.mergedUsers u = none := by rw [hagree_u, hm0]
          have hstep : mergeStep nowISO exclude acc (u, RawEntryVal.obj raw)
              = { added := acc.added ++ [u], updated := acc.updated,
                  mergedUsers := mapSet acc.mergedUsers u (sanitizeUserEntry u raw nowISO) } := by
            simp only [mergeStep]
            rw [if_neg hskip, hlookup]
          have hfold : ((u, RawEntryVal.obj raw) :: t).foldl (mergeStep nowISO exclude) acc
              = t.foldl (mergeStep nowISO exclude)
                  { added := acc.added ++ [u], updated := acc.updated,
                    mergedUsers := mapSet acc.mergedUsers u (sanitizeUserEntry u raw nowISO) } := by
            rw [List.foldl_cons, hstep]
          have hagree2 : ∀ u2 ∈ t.map Prod.fst,
              mapGet (mapSet acc.mergedUsers u (sanitizeUserEntry u raw nowISO)) u2
                = mapGet m0 u2 := by
            intro u2 h2
            have hne2 : u2 ≠ u := fun he => hu_notin (he ▸ h2)
            rw [mapGet_mapSet_ne _ _ _ _ hne2]
            exact hagree u2 (by simp [h2])
          rcases ih ⟨acc.added ++ [u], acc.updated,
              mapSet acc.mergedUsers u (sanitizeUserEntry u raw nowISO)⟩ hndt hagree2 with
            ⟨h1, h2, h3, h4⟩
          have hheadadd : mergeAddPred exclude m0 (u, RawEntryVal.obj raw) = true := by
            simp [mergeAddPred, mergeValidPair, hskip, hm0]
          have hheadupd : mergeUpdPred exclude nowISO m0 (u, RawEntryVal.obj raw) = false := by
            simp [mergeUpdPred, hskip, hm0]
          refine ⟨?_, ?_, ?_, ?_⟩
          · rw [hfold, h1]
            simp [List.filter_cons, hheadadd]
          · rw [hfold, h2]
            simp [List.filter_cons, hheadupd]
          · intro u2 hu2
            rw [hfold, h3 u2 (fun hm => hu2 (by simp [hm]))]
            have hne2 : u2 ≠ u := by
              intro he
              exact hu2 (by simp [he])
            exact mapGet_mapSet_ne _ _ _ _ hne2
          · intro u2 raw2 hmem hne hnex
            rw [hfold]
            rcases List.mem_cons.mp hmem with hh | hh
            · have hu2 : u2 = u := (Prod.mk.injEq _ _ _ _).mp hh |>.1
              have hraw2 : RawEntryVal.obj raw2 = RawEntryVal.obj raw :=
                (Prod.mk.injEq _ _ _ _).mp hh |>.2
              have hraw2e : raw2 = raw := by
                injection hraw2
              subst hu2 hraw2e
              rw [h3 u2 hu_notin, mapGet_mapSet_self, hm0]
            · exact h4 u2 raw2 hh hne hnex
        | some e =>
          have hlookup : mapGet acc.mergedUsers u = some e := by rw [hagree_u, hm0]
          by_cases hrep : shouldReplaceUserEntry e (sanitizeUserEntry u raw nowISO) = true
          · have hstep : mergeStep nowISO exclude acc (u, RawEntryVal.obj raw)
                = { added := acc.added, updated := acc.updated ++ [u],
                    mergedUsers := mapSet acc.mergedUsers u (sanitizeUserEntry u raw nowISO) } := by
              simp only [mergeStep]
              rw [if_neg hskip, hlookup]
              simp only [if_pos hrep]
            have hfold : ((u, RawEntryVal.obj raw) :: t).foldl (mergeStep nowISO exclude) acc
                = t.foldl (mergeStep nowISO exclude)
                    { added := acc.added, updated := acc.updated ++ [u],
                      mergedUsers := mapSet acc.mergedUsers u (sanitizeUserEntry u raw nowISO) } := by
              rw [List.foldl_cons, hstep]
            have hagree2 : ∀ u2 ∈ t.map Prod.fst,
                mapGet (mapSet acc.mergedUsers u (sanitizeUserEntry u raw nowISO)) u2
                  = mapGet m0 u2 := by
              intro u2 h2
              have hne2 : u2 ≠ u := fun he => hu_notin (he ▸ h2)
              rw [mapGet_mapSet_ne _ _ _ _ hne2]
              exact hagree u2 (by simp [h2])
            rcases ih ⟨acc.added, acc.updated ++ [u],
                mapSet acc.mergedUsers u (sanitizeUserEntry u raw nowISO)⟩ hndt hagree2 with
              ⟨h1, h2, h3, h4⟩
            have hheadadd : mergeAddPred exclude m0 (u, RawEntryVal.obj raw) = false := by
              simp [mergeAddPred, mergeValidPair, hskip, hm0]
            have hheadupd : mergeUpdPred exclude nowISO m0 (u, RawEntryVal.obj raw) = true := by
              simp [mergeUpdPred, hskip, hm0, hrep]
            refine ⟨?_, ?_, ?_, ?_⟩
            · rw [hfold, h1]
              simp [List.filter_cons, hheadadd]
            · rw [hfold, h2]
              simp [List.filter_cons, hheadupd]
            · intro u2 hu2
              rw [hfold, h3 u2 (fun hm => hu2 (by simp [hm]))]
              have hne2 : u2 ≠ u := by
                intro he
                exact hu2 (by simp [he])
              exact mapGet_mapSet_ne _ _ _ _ hne2
            · intro u2 raw2 hmem hne hnex
              rw [hfold]
              rcases List.mem_cons.mp hmem with hh | hh
              · have hu2 : u2 = u := (Prod.mk.injEq _ _ _ _).mp hh |>.1
                have hraw2 : RawEntryVal.obj raw2 = RawEntryVal.obj raw :=
                  (Prod.mk.injEq _ _ _ _).mp hh |>.2
                have hraw2e : raw2 = raw := by
                  injection hraw2
                subst hu2 hraw2e
                rw [h3 u2 hu_notin, mapGet_mapSet_self, hm0]
                dsimp only
                rw [if_pos hrep]
              · exact h4 u2 raw2 hh hne hnex
          · have hstep : mergeStep nowISO exclude acc (u, RawEntryVal.obj raw) = acc := by
              simp only [mergeStep]
              rw [if_neg hskip, hlookup]
              simp only [if_neg hrep]
            have hfold : ((u, RawEntryVal.obj raw) :: t).foldl (mergeStep nowISO exclude) acc
                = t.foldl (mergeStep nowISO exclude) acc := by
              rw [List.foldl_cons, hstep]
            have hagree2 : ∀ u2 ∈ t.map Prod.fst, mapGet acc.mergedUsers u2 = mapGet m0 u2 :=
              fun u2 h2 => hagree u2 (by simp [h2])
            rcases ih acc hndt hagree2 with ⟨h1, h2, h3, h4⟩
            have hheadadd : mergeAddPred exclude m0 (u, RawEntryVal.obj raw) = false := by
              simp [mergeAddPred, mergeValidPair, hskip, hm0]
            have hheadupd : mergeUpdPred exclude nowISO m0 (u, RawEntryVal.obj raw) = false := by
              simp [mergeUpdPred, hskip, hm0, hrep]
            refine ⟨?_, ?_, ?_, ?_⟩
            · rw [hfold, h1]
              simp [List.filter_cons, hheadadd]
            · rw [hfold, h2]
              simp [List.filter_cons, hheadupd]
            · intro u2 hu2
              rw [hfold]
              exact h3 u2 (fun hm => hu2 (by simp [hm]))
            · intro u2 raw2 hmem hne hnex
              rw [hfold]
              rcases List.mem_cons.mp hmem with hh | hh
              · have hu2 : u2 = u := (Prod.mk.injEq _ _ _ _).mp hh |>.1
                have hraw2 : RawEntryVal.obj raw2 = RawEntryVal.obj raw :=
                  (Prod.mk.injEq _ _ _ _).mp hh |>.2
                have hraw2e : raw2 = raw := by
                  injection hraw2
                subst hu2 hraw2e
                rw [h3 u2 hu_notin, hlookup, hm0]
                dsimp only
                rw [if_neg hrep]
              · exact h4 u2 raw2 hh hne hnex

/-- C6: `mergeLeagueUsers`.  `added` is exactly the valid incoming
usernames without an existing counterpart and `updated` exactly the
valid ones whose sanitized record wins `shouldReplaceUserEntry`, in
iteration order; both lists are duplicate-free; every listed username is
nonempty, not excluded and carried an object value; a processed username
maps to the sanitized record when it is new or wins and to the untouched
existing record when it loses; and unprocessed usernames keep their
existing record. -/
theorem merge_c6 (existingUsers : List (String × LeagueEntry))
    (incomingUsers : List (String × RawEntryVal)) (exclude : List String) (nowISO : String)
    (hnd : (incomingUsers.map Prod.fst).Nodup) :
    (mergeLeagueUsers existingUsers incomingUsers exclude nowISO).added
        = (incomingUsers.filter (mergeAddPred exclude existingUsers)).map Prod.fst
    ∧ (mergeLeagueUsers existingUsers incomingUsers exclude nowISO).updated
        = (incomingUsers.filter (mergeUpdPred exclude nowISO existingUsers)).map Prod.fst
    ∧ (mergeLeagueUsers existingUsers incomingUsers exclude nowISO).added.Nodup
    ∧ (mergeLeagueUsers existingUsers incomingUsers exclude nowISO).updated.Nodup
    ∧ (∀ u, u ∈ (mergeLeagueUsers existingUsers incomingUsers exclude nowISO).added
          ∨ u ∈ (mergeLeagueUsers existingUsers incomingUsers exclude nowISO).updated →
        u ≠ "" ∧ u ∉ exclude ∧ ∃ raw, (u, RawEntryVal.obj raw) ∈ incomingUsers)
    ∧ (∀ u raw, (u, RawEntryVal.obj raw) ∈ incomingUsers → u ≠ "" → u ∉ exclude →
        mapGet (mergeLeagueUsers existingUsers incomingUsers exclude nowISO).mergedUsers u
          = (match mapGet existingUsers u with
             | none => some (sanitizeUserEntry u raw nowISO)
             | some e =>
               if shouldReplaceUserEntry e (sanitizeUserEntry u raw nowISO)
               then some (sanitizeUserEntry u raw nowISO) else some e))
    ∧ (∀ u, u ∉ incomingUsers.map Prod.fst →
        mapGet (mergeLeagueUsers existingUsers incomingUsers exclude nowISO).mergedUsers u
          = mapGet existingUsers u) := by
  have hspec := mergeFold_spec exclude nowISO existingUsers incomingUsers
    ⟨[], [], existingUsers⟩ hnd (fun u _ => rfl)
  rcases hspec with ⟨h1, h2, h3, h4⟩
  have hadded : (mergeLeagueUsers existingUsers incomingUsers exclude nowISO).added
      = (incomingUsers.filter (mergeAddPred exclude existingUsers)).map Prod.fst := by
    rw [mergeLeagueUsers]
    simpa using h1
  have hupdated : (mergeLeagueUsers existingUsers incomingUsers exclude nowISO).updated
      = (incomingUsers.filter (mergeUpdPred exclude nowISO existingUsers)).map Prod.fst := by
    rw [mergeLeagueUsers]
    simpa using h2
  have hsub : ∀ p : (String × RawEntryVal) → Bool,
      ((incomingUsers.filter p).map Prod.fst).Sublist (incomingUsers.map Prod.fst) :=
    fun p => List.Sublist.map Prod.fst (List.filter_sublist incomingUsers)
  refine ⟨hadded, hupdated, ?_, ?_, ?_, ?_, ?_⟩
  · rw [hadded]
    exact hnd.sublist (hsub _)
  · rw [hupdated]
    exact hnd.sublist (hsub _)
  · intro u hu
    have hvalid : ∃ pair ∈ incomingUsers, pair.1 = u ∧ mergeValidPair exclude pair = true := by
      rcases hu with hu | hu
      · rw [hadded] at hu
        rcases List.mem_map.mp hu with ⟨pair, hpair, hfst⟩
        rcases List.mem_filter.mp hpair with ⟨hmem, hpred⟩
        refine ⟨pair, hmem, hfst, ?_⟩
        simp only [mergeAddPred, Bool.and_eq_true] at hpred
        exact hpred.1
      · rw [hupdated] at hu
        rcases List.mem_map.mp hu with ⟨pair, hpair, hfst⟩
        rcases List.mem_filter.mp hpair with ⟨hmem, hpred⟩
        refine ⟨pair, hmem, hfst, ?_⟩
        rcases pair with ⟨u2, v2⟩
        cases v2 with
        | notObj => simp [mergeUpdPred] at hpred
        | obj raw =>
          simp only [mergeUpdPred, Bool.and_eq_true] at hpred
          simp only [mergeValidPair]
          exact hpred.1
    rcases hvalid with ⟨pair, hmem, hfst, hpred⟩
    rcases mergeValidPair_true exclude pair hpred with ⟨hne, hnex, raw, hobj⟩
    subst hfst
    exact ⟨hne, hnex, raw, by rw [← hobj]; exact hmem⟩
  · intro u raw hmem hne hnex
    rw [mergeLeagueUsers]
    exact h4 u raw hmem hne hnex
  · intro u hu
    rw [mergeLeagueUsers]
    exact h3 u hu

def alphaExistingEntry : LeagueEntry :=
  { predictions := [], pointsS1 := 1, pointsS2 := 10, updatedAt := "x" }

def rawIncomingAlpha : RawEntry :=
  { predictions := none, pointsS1 := .num 3, pointsS2 := .num 40, updatedAt := .str "y" }

def rawIncomingBeta : RawEntry :=
  { predictions := none, pointsS1 := .num 1, pointsS2 := .num 12, updatedAt := .str "z" }

def mergeWitnessExisting : List (String × LeagueEntry) :=
  [("Alpha", alphaExistingEntry)]

def mergeWitnessIncoming : List (String × RawEntryVal) :=
  [("Alpha", .obj rawIncomingAlpha), ("Beta", .obj rawIncomingBeta),
   ("Ignored", .obj rawIncomingBeta)]

theorem merge_c6_witness :
    (mergeWitnessIncoming.map Prod.fst).Nodup
    ∧ (mergeLeagueUsers mergeWitnessExisting mergeWitnessIncoming ["Ignored"] "n").added
        = ["Beta"]
    ∧ (mergeLeagueUsers mergeWitnessExisting mergeWitnessIncoming ["Ignored"] "n").added.Nodup
    ∧ (mergeLeagueUsers mergeWitnessExisting mergeWitnessIncoming ["Ignored"] "n").updated.Nodup :=
  ⟨by decide,
   ((merge_c6 mergeWitnessExisting mergeWitnessIncoming ["Ignored"] "n" (by decide)).1).trans
     (by decide),
   (merge_c6 mergeWitnessExisting mergeWitnessIncoming ["Ignored"] "n" (by decide)).2.2.1,
   (merge_c6 mergeWitnessExisting mergeWitnessIncoming ["Ignored"] "n" (by decide)).2.2.2.1⟩

end StockGame
